import Mathlib

/-!
Shallow embedding of src/auto-claude-ui/src/main/project-initializer.ts.

Modelling conventions:
* A filesystem is a rooted tree: mutual inductives Node (file or directory)
  and Entries (a directory listing, as an association list in enumeration
  order).  Paths are lists of path components, so path.join(p, name) is
  p ++ [name].
* File contents are a FileContent: either raw text, or a parsed
  VersionMetadata value.  FileContent.json m stands for a file whose bytes
  are the JSON serialization of m; JSON.parse/JSON.stringify round-tripping
  is modelled as exact, and readVersionMetadata treats any non-JSON file
  (FileContent.text) as malformed, returning none, exactly as the source
  catches the parse error and returns null.
* Node fs primitives that throw (mkdirSync onto a file, writeFileSync or
  copyFileSync onto a directory or under a file, readdirSync of a file)
  are modelled with Except String; the try/catch blocks of
  initializeProject and updateProject catch the error and produce a
  failing InitializationResult.
* new Date().toISOString() is modelled by an explicit parameter now.
* crypto SHA-256 digesting is modelled by the list of update() chunks fed
  to the hash object (an injective abstraction of the digest); hash
  difference in the source corresponds to chunk-stream difference here.
* String.prototype functions used by the source (trim, endsWith,
  localeCompare ordering) are re-implemented over character lists so that
  all definitions evaluate by kernel reduction.
-/

namespace AutoClaude

/-- Characters dropped by String.prototype.trim at either end. -/
def charsTrimLeft : List Char → List Char := List.dropWhile Char.isWhitespace

/-- Model of JS String.prototype.trim: drop whitespace from both ends. -/
def jsTrim (s : String) : String :=
  String.mk (charsTrimLeft (charsTrimLeft s.data.reverse).reverse)

/-- Lexicographic comparison of character lists by code point; models the
ascending order induced by name.localeCompare used when sorting directory
entries. -/
def charsLe : List Char → List Char → Bool
  | [], _ => true
  | _ :: _, [] => false
  | a :: as, b :: bs => if a = b then charsLe as bs else decide (a < b)

/-- Name ordering used to sort directory entries before hashing. -/
def strLe (a b : String) : Bool := charsLe a.data b.data

/-- Model of JS String.prototype.endsWith on character lists. -/
def charsSuffix (p s : List Char) : Bool := List.isPrefixOf p.reverse s.reverse

/-- Files and directories to exclude when copying auto-claude
(EXCLUDE_PATTERNS in the source). -/
def EXCLUDE_PATTERNS : List String :=
  ["__pycache__", ".DS_Store", "*.pyc", ".env", "specs", ".git"]

/-- Files to preserve during updates, never overwrite
(PRESERVE_ON_UPDATE in the source). -/
def PRESERVE_ON_UPDATE : List String := ["specs", ".env"]

/-- One iteration of the shouldExclude loop: a pattern starting with a star
matches by suffix on the rest of the pattern, any other pattern matches by
exact equality. -/
def patMatches (name pattern : String) : Bool :=
  match pattern.data with
  | '*' :: ext => charsSuffix ext name.data
  | _ => decide (name = pattern)

/-- Check if a file/directory name matches the exclusion patterns
(shouldExclude in the source). -/
def shouldExclude (name : String) : Bool :=
  EXCLUDE_PATTERNS.any (patMatches name)

/-- Check if a file/directory should be preserved during updates
(shouldPreserve in the source). -/
def shouldPreserve (name : String) : Bool :=
  PRESERVE_ON_UPDATE.any (fun p => decide (name = p))

/-- Version metadata stored in .auto-claude/.version.json.  The sourceHash
field holds a directory fingerprint (the hash chunk stream, see the header
comment) and sourcePath a filesystem path (a component list). -/
structure VersionMetadata where
  version : String
  sourceHash : List String
  sourcePath : List String
  initializedAt : String
  updatedAt : String
deriving DecidableEq, Repr

/-- Content of a file on disk: raw text, or bytes that parse as a
VersionMetadata JSON document. -/
inductive FileContent where
  | text : String → FileContent
  | json : VersionMetadata → FileContent
deriving DecidableEq, Repr

/-- Result of initialization or update operation. -/
structure InitializationResult where
  success : Bool
  error : Option String := none
  version : Option String := none
  wasUpdate : Option Bool := none
deriving DecidableEq, Repr

/-- Result of version check.  sourcePath is a filesystem path. -/
structure VersionCheckResult where
  isInitialized : Bool
  currentVersion : Option String := none
  sourceVersion : Option String := none
  updateAvailable : Bool
  sourcePath : Option (List String) := none
deriving DecidableEq, Repr

mutual
/-- A filesystem node: a regular file with contents, or a directory. -/
inductive Node where
  | file : FileContent → Node
  | dir : Entries → Node
deriving DecidableEq, Repr
/-- A directory listing in on-disk enumeration order. -/
inductive Entries where
  | nil : Entries
  | cons : String → Node → Entries → Entries
deriving DecidableEq, Repr
end

/-- Mutual induction principle for Node and Entries, packaged so it can be
applied with positional arguments. -/
theorem nodeEntriesInd (motive : Node → Prop) (motiveE : Entries → Prop)
    (hf : ∀ c, motive (.file c)) (hd : ∀ es, motiveE es → motive (.dir es))
    (hn : motiveE .nil)
    (hc : ∀ k v rest, motive v → motiveE rest → motiveE (.cons k v rest)) :
    (∀ n, motive n) ∧ (∀ e, motiveE e) :=
  ⟨fun n => @Node.rec motive motiveE hf hd hn hc n,
   fun e => @Entries.rec motive motiveE hf hd hn hc e⟩

/-- Look up a directory entry by name (readdir entries have unique names on
a real filesystem; lookup returns the first match). -/
def Entries.lookup : Entries → String → Option Node
  | .nil, _ => none
  | .cons k v rest, name => if k = name then some v else rest.lookup name

/-- Replace the entry of the given name, or append it if absent; models
creating or overwriting a child of a directory. -/
def Entries.set : Entries → String → Node → Entries
  | .nil, k, v => .cons k v .nil
  | .cons k' v' rest, k, v =>
      if k' = k then .cons k v rest else .cons k' v' (rest.set k v)

/-- Whether a directory listing contains an entry of the given name. -/
def Entries.hasName : Entries → String → Bool
  | .nil, _ => false
  | .cons k _ rest, name => decide (k = name) || rest.hasName name

/-- Whether every entry of a listing is excluded by shouldExclude. -/
def Entries.allExcluded : Entries → Bool
  | .nil => true
  | .cons k _ rest => shouldExclude k && rest.allExcluded

/-- Resolve a path relative to a node (models following the path on disk;
none when the path does not exist, which is what existsSync tests). -/
def Node.get : Node → List String → Option Node
  | n, [] => some n
  | .file _, _ :: _ => none
  | .dir es, k :: rest =>
      match es.lookup k with
      | some child => child.get rest
      | none => none

/-- Model of existsSync on a path. -/
def existsSync (root : Node) (p : List String) : Bool :=
  (root.get p).isSome

/-- Model of writeFileSync / copyFileSync to a destination path: the parent
chain must already exist as directories (else ENOENT/ENOTDIR is thrown) and
the target must not be an existing directory (else EISDIR). -/
def Node.write : Node → List String → FileContent → Except String Node
  | _, [], _ => .error "EISDIR: illegal operation on a directory"
  | .file _, _ :: _, _ => .error "ENOTDIR: not a directory"
  | .dir es, [k], c =>
      match es.lookup k with
      | some (.dir _) => .error "EISDIR: illegal operation on a directory"
      | _ => .ok (.dir (es.set k (.file c)))
  | .dir es, k :: k' :: rest, c =>
      match es.lookup k with
      | none => .error "ENOENT: no such file or directory"
      | some child => do
          let child' ← child.write (k' :: rest) c
          .ok (.dir (es.set k child'))

/-- Model of mkdirSync(p, recursive: true): create every missing directory
along the path; a file anywhere on the path is an error (ENOTDIR, or EEXIST
at the final component). -/
def Node.mkdirp : Node → List String → Except String Node
  | .dir es, [] => .ok (.dir es)
  | .file _, [] => .error "EEXIST: file already exists"
  | .file _, _ :: _ => .error "ENOTDIR: not a directory"
  | .dir es, k :: rest =>
      let child := match es.lookup k with
        | some c => c
        | none => .dir .nil
      do
        let child' ← child.mkdirp rest
        .ok (.dir (es.set k child'))

/-- Place a subtree at a path whose parent chain already exists; this is the
embedding artifact used to write the result of a recursive copy back into
the root tree. -/
def Node.setNode : Node → List String → Node → Except String Node
  | _, [], v => .ok v
  | .file _, _ :: _, _ => .error "ENOTDIR: not a directory"
  | .dir es, [k], v => .ok (.dir (es.set k v))
  | .dir es, k :: k' :: rest, v =>
      match es.lookup k with
      | none => .error "ENOENT: no such file or directory"
      | some child => do
          let child' ← child.setNode (k' :: rest) v
          .ok (.dir (es.set k child'))

mutual
/-- Recursively copy a directory with exclusions (copyDirectoryRecursive in
the source), expressed as a pure function from the source subtree and the
current destination subtree (none when the destination path does not exist
yet, in which case mkdirSync creates it as an empty directory) to the new
destination subtree.  A file source is an error (readdirSync throws
ENOTDIR).  When the destination is an existing file, every non-excluded
source entry would be written underneath a file and throws; if all entries
are excluded the loop body never runs and the file is left as is. -/
def copyDirectoryRecursive : Node → Option Node → Bool → Except String Node
  | .file _, _, _ => .error "ENOTDIR: scandir on a file"
  | .dir es, some (.file c), _ =>
      if es.allExcluded then .ok (.file c) else .error "ENOTDIR: not a directory"
  | .dir es, some (.dir des), isUpdate => (copyEntries es des isUpdate).map .dir
  | .dir es, none, isUpdate => (copyEntries es .nil isUpdate).map .dir
/-- The entry loop of copyDirectoryRecursive: for each source entry, skip it
if excluded, skip it during updates if preserved and already present at the
destination, recurse for directories, and copy (overwriting) for files.
copyFileSync over an existing directory throws EISDIR. -/
def copyEntries : Entries → Entries → Bool → Except String Entries
  | .nil, des, _ => .ok des
  | .cons name n rest, des, isUpdate =>
      if shouldExclude name then copyEntries rest des isUpdate
      else if isUpdate && shouldPreserve name && (des.lookup name).isSome then
        copyEntries rest des isUpdate
      else
        match n with
        | .dir _ => do
            let sub ← copyDirectoryRecursive n (des.lookup name) isUpdate
            copyEntries rest (des.set name sub) isUpdate
        | .file c =>
            match des.lookup name with
            | some (.dir _) => .error "EISDIR: illegal operation on a directory"
            | _ => copyEntries rest (des.set name (.file c)) isUpdate
end

/-- Path-level wrapper for copyDirectoryRecursive: resolve the source
subtree, create the destination directory (with its parents) when it does
not exist, run the recursive copy and write the result back at the
destination path. -/
def copyDirAt (root : Node) (src dest : List String) (isUpdate : Bool) :
    Except String Node := do
  match root.get src with
  | none => .error "ENOENT: no such file or directory"
  | some s => do
      let root₁ ← if existsSync root dest then pure root else root.mkdirp dest
      let sub ← copyDirectoryRecursive s (root₁.get dest) isUpdate
      root₁.setNode dest sub

/-- Concatenate strings with a separator (model of the byte concatenation
feeding the metadata JSON serialization). -/
def joinSep (sep : String) : List String → String
  | [] => ""
  | [s] => s
  | s :: rest => s ++ sep ++ joinSep sep rest

/-- Serialized bytes of a VersionMetadata value, standing for
JSON.stringify(metadata, null, 2). -/
def encodeMeta (m : VersionMetadata) : String :=
  "json(" ++ m.version ++ ";" ++ joinSep "," m.sourceHash ++ ";" ++
    joinSep "/" m.sourcePath ++ ";" ++ m.initializedAt ++ ";" ++ m.updatedAt ++ ")"

/-- Bytes of a file as fed to readFileSync and to the hash. -/
def FileContent.bytes : FileContent → String
  | .text s => s
  | .json m => encodeMeta m

/-- Insert an entry into a listing sorted by name. -/
def insertByName (p : String × Node) : Entries → Entries
  | .nil => .cons p.1 p.2 .nil
  | .cons k v rest =>
      if strLe p.1 k then .cons p.1 p.2 (.cons k v rest)
      else .cons k v (insertByName p rest)

/-- Sort a directory listing by entry name; models
entries.sort((a, b) => a.name.localeCompare(b.name)). -/
def sortEntries : Entries → Entries
  | .nil => .nil
  | .cons k v rest => insertByName (k, v) (sortEntries rest)

mutual
/-- Recursively sort every directory level of a tree by entry name.
calculateDirectoryHash sorts each directory listing as it reaches it; the
fold visits every directory exactly once, so pre-sorting the whole tree and
then folding (hashChunks below) produces the same chunk stream. -/
def normalizeTree : Node → Node
  | .file c => .file c
  | .dir es => .dir (sortEntries (normalizeEntries es))
/-- Recursively sort the subtree of every entry of a listing. -/
def normalizeEntries : Entries → Entries
  | .nil => .nil
  | .cons k v rest => .cons k (normalizeTree v) (normalizeEntries rest)
end

mutual
/-- Chunk stream that processDirectory feeds to the running hash, for a
tree whose directory levels are already sorted: excluded entries are
skipped; a directory contributes a dir:name tag and recurses; a file
contributes a file:name:length tag followed by its bytes. -/
def hashChunks : Node → List String
  | .file _ => []
  | .dir es => hashChunksEntries es
/-- Chunk stream of a sorted directory listing. -/
def hashChunksEntries : Entries → List String
  | .nil => []
  | .cons name n rest =>
      if shouldExclude name then hashChunksEntries rest
      else
        match n with
        | .dir _ => ("dir:" ++ name) :: (hashChunks n ++ hashChunksEntries rest)
        | .file c =>
            ("file:" ++ name ++ ":" ++ toString c.bytes.length) ::
              c.bytes :: hashChunksEntries rest
end

/-- Calculate hash of directory contents (calculateDirectoryHash in the
source).  A missing root path yields the empty traversal; a file root makes
readdirSync throw.  The digest of the accumulated stream is modelled by the
stream itself. -/
def calculateDirectoryHash : Option Node → Except String (List String)
  | none => .ok []
  | some (.file _) => .error "ENOTDIR: scandir on a file"
  | some t => .ok (hashChunks (normalizeTree t))

/-- Read version from the VERSION file in the auto-claude source
(readSourceVersion in the source): the whole file contents trimmed when the
file exists, the string 0.0.0 when it is absent; readFileSync of a
directory throws. -/
def readSourceVersion (root : Node) (sourcePath : List String) :
    Except String String :=
  match root.get (sourcePath ++ ["VERSION"]) with
  | some (.file c) => .ok (jsTrim c.bytes)
  | some (.dir _) => .error "EISDIR: illegal operation on a directory"
  | none => .ok "0.0.0"

/-- Read version metadata from an initialized project (readVersionMetadata
in the source); a missing sidecar, malformed JSON, or a throwing
readFileSync all yield null. -/
def readVersionMetadata (root : Node) (autoBuildPath : List String) :
    Option VersionMetadata :=
  match root.get (autoBuildPath ++ [".version.json"]) with
  | some (.file (.json m)) => some m
  | _ => none

/-- Write version metadata to an initialized project (writeVersionMetadata
in the source). -/
def writeVersionMetadata (root : Node) (autoBuildPath : List String)
    (m : VersionMetadata) : Except String Node :=
  root.write (autoBuildPath ++ [".version.json"]) (.json m)

/-- Tail of checkVersion once metadata is known (the source-exists test and
the hash/version comparison, lines 318-344 of the source): no source means
no update signal; otherwise compare fresh source hash and version against
the stored ones, reporting an update only when both differ. -/
def checkVersionResolved (root₁ : Node) (installedPath sourcePath : List String)
    (metadata : VersionMetadata) : Except String (VersionCheckResult × Node) :=
  if !existsSync root₁ sourcePath then
    .ok ({ isInitialized := true, currentVersion := some metadata.version,
           updateAvailable := false, sourcePath := some installedPath }, root₁)
  else do
    let sourceVersion ← readSourceVersion root₁ sourcePath
    let sourceHash ← calculateDirectoryHash (root₁.get sourcePath)
    let hashDiffers := decide (metadata.sourceHash ≠ sourceHash)
    let versionDiffers := decide (metadata.version ≠ sourceVersion)
    pure ({ isInitialized := true, currentVersion := some metadata.version,
            sourceVersion := some sourceVersion,
            updateAvailable := hashDiffers && versionDiffers,
            sourcePath := some installedPath }, root₁)

/-- Check version status for a project (checkVersion in the source).  Only
.auto-claude counts as installed.  If the folder exists without metadata
and the source exists, retroactive metadata is synthesized (version = the
source version marker, sourceHash = hash of the installed tree,
initializedAt = updatedAt = now) and persisted immediately; the tail of the
function, from the source-exists test at line 319 of the original onward,
is split into checkVersionResolved above.  The returned pair carries the
possibly updated filesystem root. -/
def checkVersion (root : Node) (projectPath sourcePath : List String)
    (now : String) : Except String (VersionCheckResult × Node) :=
  let dotAutoBuildPath := projectPath ++ [".auto-claude"]
  if existsSync root dotAutoBuildPath then
    let installedPath := dotAutoBuildPath
    match readVersionMetadata root installedPath with
    | some m => checkVersionResolved root installedPath sourcePath m
    | none =>
        if existsSync root sourcePath then do
          let sourceVersion ← readSourceVersion root sourcePath
          let installedHash ← calculateDirectoryHash (root.get installedPath)
          let m : VersionMetadata :=
            { version := sourceVersion, sourceHash := installedHash,
              sourcePath := sourcePath, initializedAt := now, updatedAt := now }
          let root₁ ← writeVersionMetadata root installedPath m
          checkVersionResolved root₁ installedPath sourcePath m
        else
          .ok ({ isInitialized := true, updateAvailable := false,
                 sourcePath := some installedPath }, root)
  else
    .ok ({ isInitialized := false, updateAvailable := false }, root)

/-- One managed data directory block of initializeProject: create the
directory if it does not exist, then unconditionally write an empty
.gitkeep marker file into it. -/
def createDataDir (root : Node) (base : List String) (name : String) :
    Except String Node := do
  let d := base ++ [name]
  let root₁ ← if existsSync root d then pure root else root.mkdirp d
  root₁.write (d ++ [".gitkeep"]) (.text "")

/-- Copy .env.example to .env if .env does not exist (the env block of
initializeProject). -/
def copyEnvStep (root : Node) (base : List String) : Except String Node :=
  match root.get (base ++ [".env.example"]),
        existsSync root (base ++ [".env"]) with
  | some (.file c), false => root.write (base ++ [".env"]) c
  | some (.dir _), false => .error "EISDIR: illegal operation on a directory"
  | _, _ => pure root

/-- Initialize auto-claude in a project (initializeProject in the source).
Returns the result together with the filesystem root; a caught exception
reports failure (the partially copied on-disk state that a real exception
leaves behind is not modelled, only the failing result is). -/
def initializeProject (root : Node) (projectPath sourcePath : List String)
    (now : String) : InitializationResult × Node :=
  if !existsSync root sourcePath then
    ({ success := false,
       error := some ("Auto-build source not found at: " ++ joinSep "/" sourcePath) },
     root)
  else if !existsSync root projectPath then
    ({ success := false,
       error := some ("Project directory not found: " ++ joinSep "/" projectPath) },
     root)
  else
    let dotAutoBuildPath := projectPath ++ [".auto-claude"]
    if existsSync root dotAutoBuildPath then
      ({ success := false,
         error := some "Project already has auto-claude initialized (.auto-claude exists)" },
       root)
    else
      match (do
        let root₁ ← copyDirAt root sourcePath dotAutoBuildPath false
        let root₂ ← createDataDir root₁ dotAutoBuildPath "specs"
        let root₃ ← createDataDir root₂ dotAutoBuildPath "roadmap"
        let root₄ ← createDataDir root₃ dotAutoBuildPath "ideation"
        let root₅ ← copyEnvStep root₄ dotAutoBuildPath
        let version ← readSourceVersion root₅ sourcePath
        let sourceHash ← calculateDirectoryHash (root₅.get sourcePath)
        let root₆ ← writeVersionMetadata root₅ dotAutoBuildPath
          { version := version, sourceHash := sourceHash, sourcePath := sourcePath,
            initializedAt := now, updatedAt := now }
        pure (version, root₆) : Except String (String × Node)) with
      | .ok (version, root') =>
          ({ success := true, version := some version, wasUpdate := some false }, root')
      | .error e => ({ success := false, error := some e }, root)

/-- Update auto-claude in a project (updateProject in the source): copy
with preservation, then recompute the metadata, reading the existing
metadata only after the copy; a falsy (empty) stored initializedAt is
replaced by now, mirroring the JS disjunction
existingMetadata?.initializedAt || now. -/
def updateProject (root : Node) (projectPath sourcePath : List String)
    (now : String) : InitializationResult × Node :=
  if !existsSync root sourcePath then
    ({ success := false,
       error := some ("Auto-build source not found at: " ++ joinSep "/" sourcePath) },
     root)
  else
    let dotAutoBuildPath := projectPath ++ [".auto-claude"]
    if !existsSync root dotAutoBuildPath then
      ({ success := false,
         error := some "No .auto-claude folder found to update. Initialize the project first." },
       root)
    else
      let targetPath := dotAutoBuildPath
      match (do
        let root₁ ← copyDirAt root sourcePath targetPath true
        let version ← readSourceVersion root₁ sourcePath
        let sourceHash ← calculateDirectoryHash (root₁.get sourcePath)
        let existingMetadata := readVersionMetadata root₁ targetPath
        let initAt :=
          match existingMetadata with
          | some m => if m.initializedAt = "" then now else m.initializedAt
          | none => now
        let root₂ ← writeVersionMetadata root₁ targetPath
          { version := version, sourceHash := sourceHash, sourcePath := sourcePath,
            initializedAt := initAt, updatedAt := now }
        pure (version, root₂) : Except String (String × Node)) with
      | .ok (version, root') =>
          ({ success := true, version := some version, wasUpdate := some true }, root')
      | .error e => ({ success := false, error := some e }, root)

/-! Basic lemmas about the filesystem primitives. -/

/-- Induction principle for Entries alone. -/
theorem entriesInd (motiveE : Entries → Prop) (hnil : motiveE .nil)
    (hcons : ∀ k v rest, motiveE rest → motiveE (.cons k v rest)) :
    ∀ e, motiveE e :=
  (nodeEntriesInd (fun _ => True) motiveE (fun _ => trivial)
    (fun _ _ => trivial) hnil (fun k v rest _ h => hcons k v rest h)).2

theorem exbind_ok {α β : Type} (a : α) (f : α → Except String β) :
    (do let x ← (Except.ok a : Except String α); f x) = f a := rfl

theorem exbind_err {α β : Type} (e : String) (f : α → Except String β) :
    (do let x ← (Except.error e : Except String α); f x) =
      (.error e : Except String β) := rfl

theorem expure_bind {α β : Type} (a : α) (f : α → Except String β) :
    (do let x ← (pure a : Except String α); f x) = f a := rfl

/-- Boolean path-prefix test (q is an initial segment of p, possibly all of
it). -/
def isPrefixB : List String → List String → Bool
  | [], _ => true
  | _ :: _, [] => false
  | a :: as, b :: bs => decide (a = b) && isPrefixB as bs

theorem lookup_set_self (es : Entries) (k : String) (v : Node) :
    (es.set k v).lookup k = some v := by
  induction es using entriesInd with
  | hnil => simp [Entries.set, Entries.lookup]
  | hcons k' v' rest ih =>
      by_cases h : k' = k
      · simp [Entries.set, Entries.lookup, h]
      · simp [Entries.set, Entries.lookup, h, ih]

theorem lookup_set_ne (es : Entries) (k j : String) (v : Node) (h : j ≠ k) :
    (es.set k v).lookup j = es.lookup j := by
  induction es using entriesInd with
  | hnil => simp [Entries.set, Entries.lookup, Ne.symm h]
  | hcons k' v' rest ih =>
      by_cases hk : k' = k
      · subst hk
        simp [Entries.set, Entries.lookup, Ne.symm h]
      · by_cases hj : k' = j
        · simp [Entries.set, Entries.lookup, hk, hj, h]
        · simp [Entries.set, Entries.lookup, hk, hj, ih]

theorem hasName_false_lookup (es : Entries) (j : String)
    (h : es.hasName j = false) : es.lookup j = none := by
  induction es using entriesInd with
  | hnil => simp [Entries.lookup]
  | hcons k v rest ih =>
      simp [Entries.hasName] at h
      simp [Entries.lookup, h.1, ih h.2]

theorem get_append (root : Node) (p q : List String) :
    root.get (p ++ q) = (root.get p).bind (fun n => n.get q) := by
  induction p generalizing root with
  | nil => simp [Node.get]
  | cons k rest ih =>
      cases root with
      | file c => simp [Node.get]
      | dir es =>
          simp only [List.cons_append, Node.get]
          cases es.lookup k with
          | none => simp
          | some child => simpa using ih child

theorem get_append_isSome (root : Node) (p q : List String) (n : Node)
    (h : root.get (p ++ q) = some n) : (root.get p).isSome := by
  rw [get_append] at h
  cases hp : root.get p with
  | none => rw [hp] at h; simp at h
  | some x => simp

/-- A successful write leaves every path that is not an initial segment of
the written path unchanged (paths strictly below the target were dangling
before and remain dangling, since the target was a file or absent). -/
theorem write_frame (p : List String) (root r' : Node) (c : FileContent)
    (q : List String) (hw : root.write p c = .ok r')
    (hq : isPrefixB q p = false) : r'.get q = root.get q := by
  induction p generalizing root r' q with
  | nil => simp [Node.write] at hw
  | cons k ptail ih =>
      cases root with
      | file c0 => simp [Node.write] at hw
      | dir es =>
          cases q with
          | nil => simp [isPrefixB] at hq
          | cons j qtail =>
              by_cases hjk : j = k
              · subst hjk
                simp [isPrefixB] at hq
                cases ptail with
                | nil =>
                    cases qtail with
                    | nil => simp [isPrefixB] at hq
                    | cons b bs =>
                        cases hl : es.lookup j with
                        | none =>
                            simp only [Node.write, hl] at hw
                            cases hw
                            simp [Node.get, lookup_set_self, hl]
                        | some child =>
                            cases child with
                            | file c1 =>
                                simp only [Node.write, hl] at hw
                                cases hw
                                simp [Node.get, lookup_set_self, hl]
                            | dir es1 => simp [Node.write, hl] at hw
                | cons k' rest =>
                    cases hl : es.lookup j with
                    | none => simp [Node.write, hl] at hw
                    | some child =>
                        simp only [Node.write, hl] at hw
                        cases hcw : child.write (k' :: rest) c with
                        | error e =>
                            rw [hcw, exbind_err] at hw
                            simp at hw
                        | ok child' =>
                            rw [hcw, exbind_ok] at hw
                            cases hw
                            simp [Node.get, lookup_set_self, hl, ih _ _ _ hcw hq]
              · have hne : j ≠ k := hjk
                cases ptail with
                | nil =>
                    cases hl : es.lookup k with
                    | none =>
                        simp only [Node.write, hl] at hw
                        cases hw
                        simp [Node.get, lookup_set_ne _ _ _ _ hne]
                    | some child =>
                        cases child with
                        | file c1 =>
                            simp only [Node.write, hl] at hw
                            cases hw
                            simp [Node.get, lookup_set_ne _ _ _ _ hne]
                        | dir es1 => simp [Node.write, hl] at hw
                | cons k' rest =>
                    cases hl : es.lookup k with
                    | none => simp [Node.write, hl] at hw
                    | some child =>
                        simp only [Node.write, hl] at hw
                        cases hcw : child.write (k' :: rest) c with
                        | error e =>
                            rw [hcw, exbind_err] at hw
                            simp at hw
                        | ok child' =>
                            rw [hcw, exbind_ok] at hw
                            cases hw
                            simp [Node.get, lookup_set_ne _ _ _ _ hne]

/-- A successful write makes the written path hold exactly the written
file. -/
theorem write_get_self (p : List String) (root r' : Node) (c : FileContent)
    (hw : root.write p c = .ok r') : r'.get p = some (.file c) := by
  induction p generalizing root r' with
  | nil => simp [Node.write] at hw
  | cons k ptail ih =>
      cases root with
      | file c0 => simp [Node.write] at hw
      | dir es =>
          cases ptail with
          | nil =>
              cases hl : es.lookup k with
              | none =>
                  simp only [Node.write, hl] at hw
                  cases hw
                  simp [Node.get, lookup_set_self]
              | some child =>
                  cases child with
                  | file c1 =>
                      simp only [Node.write, hl] at hw
                      cases hw
                      simp [Node.get, lookup_set_self]
                  | dir es1 => simp [Node.write, hl] at hw
          | cons k' rest =>
              cases hl : es.lookup k with
              | none => simp [Node.write, hl] at hw
              | some child =>
                  simp only [Node.write, hl] at hw
                  cases hcw : child.write (k' :: rest) c with
                  | error e => rw [hcw, exbind_err] at hw; simp at hw
                  | ok child' =>
                      rw [hcw, exbind_ok] at hw
                      cases hw
                      simp [Node.get, lookup_set_self, ih _ _ hcw]

/-- A successful write keeps every directory elsewhere in the tree a
directory (the written target itself was not a directory, or the write
would have failed). -/
theorem write_dir_frame (p : List String) (root r' : Node) (c : FileContent)
    (q : List String) (es₀ : Entries) (hw : root.write p c = .ok r')
    (hg : root.get q = some (.dir es₀)) :
    ∃ es₁, r'.get q = some (.dir es₁) := by
  induction p generalizing root r' q es₀ with
  | nil => simp [Node.write] at hw
  | cons k ptail ih =>
      cases root with
      | file c0 => simp [Node.write] at hw
      | dir es =>
          cases q with
          | nil =>
              simp only [Node.get] at hg
              cases ptail with
              | nil =>
                  cases hl : es.lookup k with
                  | none =>
                      simp only [Node.write, hl] at hw
                      cases hw
                      exact ⟨_, rfl⟩
                  | some child =>
                      cases child with
                      | file c1 =>
                          simp only [Node.write, hl] at hw
                          cases hw
                          exact ⟨_, rfl⟩
                      | dir es1 => simp [Node.write, hl] at hw
              | cons k' rest =>
                  cases hl : es.lookup k with
                  | none => simp [Node.write, hl] at hw
                  | some child =>
                      simp only [Node.write, hl] at hw
                      cases hcw : child.write (k' :: rest) c with
                      | error e => rw [hcw, exbind_err] at hw; simp at hw
                      | ok child' =>
                          rw [hcw, exbind_ok] at hw
                          cases hw
                          exact ⟨_, rfl⟩
          | cons j qtail =>
              by_cases hjk : j = k
              · subst hjk
                cases hl : es.lookup j with
                | none =>
                    simp only [Node.get, hl] at hg
                    simp at hg
                | some child =>
                    simp only [Node.get, hl] at hg
                    cases ptail with
                    | nil =>
                        cases child with
                        | file c1 =>
                            cases qtail with
                            | nil => simp [Node.get] at hg
                            | cons b bs => simp [Node.get] at hg
                        | dir es1 => simp [Node.write, hl] at hw
                    | cons k' rest =>
                        simp only [Node.write, hl] at hw
                        cases hcw : child.write (k' :: rest) c with
                        | error e => rw [hcw, exbind_err] at hw; simp at hw
                        | ok child' =>
                            rw [hcw, exbind_ok] at hw
                            cases hw
                            obtain ⟨es₁, h₁⟩ := ih _ _ _ _ hcw hg
                            exact ⟨es₁, by simp [Node.get, lookup_set_self, h₁]⟩
              · have hw' : r'.get (j :: qtail) = (Node.dir es).get (j :: qtail) := by
                  apply write_frame _ _ _ _ _ hw
                  simp [isPrefixB, hjk]
                rw [hw', hg]
                exact ⟨es₀, rfl⟩

/-- A write to a path whose parent exists as a directory and whose target
entry is not a directory succeeds. -/
theorem write_ok_exists (q : List String) (k : String) (root : Node)
    (es : Entries) (c : FileContent) (hg : root.get q = some (.dir es))
    (hnd : ∀ des, es.lookup k ≠ some (.dir des)) :
    ∃ r', root.write (q ++ [k]) c = .ok r' := by
  induction q generalizing root es with
  | nil =>
      simp only [Node.get] at hg
      cases hg
      cases hl : es.lookup k with
      | none =>
          refine ⟨.dir (es.set k (.file c)), ?_⟩
          simp [Node.write, hl]
      | some child =>
          cases child with
          | file c1 =>
              refine ⟨.dir (es.set k (.file c)), ?_⟩
              simp [Node.write, hl]
          | dir es1 => exact absurd hl (hnd es1)
  | cons j qtail ih =>
      cases root with
      | file c0 => simp [Node.get] at hg
      | dir es₀ =>
          cases hl : es₀.lookup j with
          | none => simp [Node.get, hl] at hg
          | some child =>
              simp only [Node.get, hl] at hg
              obtain ⟨r₁, h₁⟩ := ih child es hg hnd
              refine ⟨.dir (es₀.set j r₁), ?_⟩
              cases qtail with
              | nil =>
                  have h₁' : child.write [k] c = .ok r₁ := by simpa using h₁
                  simp only [List.cons_append, List.nil_append, Node.write, hl]
                  rw [h₁', exbind_ok]
              | cons b bs =>
                  have h₁' : child.write (b :: (bs ++ [k])) c = .ok r₁ := by
                    simpa using h₁
                  simp only [List.cons_append, Node.write, hl, List.append_eq]
                  rw [h₁', exbind_ok]

/-- Every strict prefix of a successfully written path is a directory both
before and after the write. -/
theorem write_parents (p : List String) (root r' : Node) (c : FileContent)
    (hw : root.write p c = .ok r') (q rest : List String) (k : String)
    (hp : p = q ++ k :: rest) :
    (∃ es, root.get q = some (.dir es)) ∧
      (∃ es, r'.get q = some (.dir es)) := by
  induction q generalizing root r' p with
  | nil =>
      subst hp
      cases root with
      | file c0 => simp [Node.write] at hw
      | dir es =>
          refine ⟨⟨es, by simp [Node.get]⟩, ?_⟩
          cases rest with
          | nil =>
              cases hl : es.lookup k with
              | none =>
                  simp only [List.nil_append, Node.write, hl] at hw
                  cases hw
                  exact ⟨_, rfl⟩
              | some child =>
                  cases child with
                  | file c1 =>
                      simp only [List.nil_append, Node.write, hl] at hw
                      cases hw
                      exact ⟨_, rfl⟩
                  | dir es1 => simp [Node.write, hl] at hw
          | cons k' krest =>
              cases hl : es.lookup k with
              | none => simp [Node.write, hl] at hw
              | some child =>
                  simp only [List.nil_append, Node.write, hl] at hw
                  cases hcw : child.write (k' :: krest) c with
                  | error e => rw [hcw, exbind_err] at hw; simp at hw
                  | ok child' =>
                      rw [hcw, exbind_ok] at hw
                      cases hw
                      exact ⟨_, rfl⟩
  | cons j qtail ih =>
      subst hp
      cases root with
      | file c0 => simp [Node.write] at hw
      | dir es =>
          cases htail : qtail ++ k :: rest with
          | nil => simp at htail
          | cons t ts =>
              rw [List.cons_append, htail] at hw
              cases hl : es.lookup j with
              | none => simp [Node.write, hl] at hw
              | some child =>
                  simp only [Node.write, hl] at hw
                  cases hcw : child.write (t :: ts) c with
                  | error e => rw [hcw, exbind_err] at hw; simp at hw
                  | ok child' =>
                      rw [hcw, exbind_ok] at hw
                      cases hw
                      rw [← htail] at hcw
                      obtain ⟨⟨es₁, he₁⟩, ⟨es₂, he₂⟩⟩ := ih _ _ _ hcw rfl
                      exact ⟨⟨es₁, by simp [Node.get, hl, he₁]⟩,
                             ⟨es₂, by simp [Node.get, lookup_set_self, he₂]⟩⟩

/-- mkdirSync(recursive) never touches an existing file anywhere. -/
theorem mkdirp_frame_file (p : List String) (root r' : Node)
    (q : List String) (c : FileContent) (hm : root.mkdirp p = .ok r')
    (hg : root.get q = some (.file c)) : r'.get q = some (.file c) := by
  induction p generalizing root r' q with
  | nil =>
      cases root with
      | file c0 => simp [Node.mkdirp] at hm
      | dir es =>
          simp only [Node.mkdirp] at hm
          cases hm
          exact hg
  | cons k ptail ih =>
      cases root with
      | file c0 => simp [Node.mkdirp] at hm
      | dir es =>
          simp only [Node.mkdirp] at hm
          cases hcm : (match es.lookup k with
              | some c => c
              | none => .dir .nil).mkdirp ptail with
          | error e => rw [hcm, exbind_err] at hm; simp at hm
          | ok child' =>
              rw [hcm, exbind_ok] at hm
              cases hm
              cases q with
              | nil => simp [Node.get] at hg
              | cons j qtail =>
                  by_cases hjk : j = k
                  · subst hjk
                    cases hl : es.lookup j with
                    | none => simp [Node.get, hl] at hg
                    | some child =>
                        rw [hl] at hcm
                        simp only [Node.get, hl] at hg
                        simp [Node.get, lookup_set_self, ih _ _ _ hcm hg]
                  · simp only [Node.get, lookup_set_ne _ _ _ _ hjk]
                    simpa [Node.get] using hg

/-- A successful mkdirSync(recursive) leaves a directory at the target
path. -/
theorem mkdirp_get_dir (p : List String) (root r' : Node)
    (hm : root.mkdirp p = .ok r') : ∃ es, r'.get p = some (.dir es) := by
  induction p generalizing root r' with
  | nil =>
      cases root with
      | file c0 => simp [Node.mkdirp] at hm
      | dir es =>
          simp only [Node.mkdirp] at hm
          cases hm
          exact ⟨es, rfl⟩
  | cons k ptail ih =>
      cases root with
      | file c0 => simp [Node.mkdirp] at hm
      | dir es =>
          simp only [Node.mkdirp] at hm
          cases hcm : (match es.lookup k with
              | some c => c
              | none => .dir .nil).mkdirp ptail with
          | error e => rw [hcm, exbind_err] at hm; simp at hm
          | ok child' =>
              rw [hcm, exbind_ok] at hm
              cases hm
              obtain ⟨es₁, h₁⟩ := ih _ _ hcm
              exact ⟨es₁, by simp [Node.get, lookup_set_self, h₁]⟩

/-- mkdirSync(recursive) keeps every existing directory a directory. -/
theorem mkdirp_dir_frame (p : List String) (root r' : Node)
    (q : List String) (es₀ : Entries) (hm : root.mkdirp p = .ok r')
    (hg : root.get q = some (.dir es₀)) :
    ∃ es₁, r'.get q = some (.dir es₁) := by
  induction p generalizing root r' q es₀ with
  | nil =>
      cases root with
      | file c0 => simp [Node.mkdirp] at hm
      | dir es =>
          simp only [Node.mkdirp] at hm
          cases hm
          exact ⟨es₀, hg⟩
  | cons k ptail ih =>
      cases root with
      | file c0 => simp [Node.mkdirp] at hm
      | dir es =>
          simp only [Node.mkdirp] at hm
          cases hcm : (match es.lookup k with
              | some c => c
              | none => .dir .nil).mkdirp ptail with
          | error e => rw [hcm, exbind_err] at hm; simp at hm
          | ok child' =>
              rw [hcm, exbind_ok] at hm
              cases hm
              cases q with
              | nil =>
                  simp only [Node.get] at hg ⊢
                  exact ⟨_, rfl⟩
              | cons j qtail =>
                  by_cases hjk : j = k
                  · subst hjk
                    cases hl : es.lookup j with
                    | none => simp [Node.get, hl] at hg
                    | some child =>
                        rw [hl] at hcm
                        simp only [Node.get, hl] at hg
                        obtain ⟨es₁, h₁⟩ := ih _ _ _ _ hcm hg
                        exact ⟨es₁, by simp [Node.get, lookup_set_self, h₁]⟩
                  · refine ⟨es₀, ?_⟩
                    simp only [Node.get, lookup_set_ne _ _ _ _ hjk]
                    simpa [Node.get] using hg

/-- setNode places the subtree at the path. -/
theorem setNode_get (p : List String) (root r' v : Node)
    (hs : root.setNode p v = .ok r') : r'.get p = some v := by
  induction p generalizing root r' with
  | nil =>
      simp only [Node.setNode] at hs
      cases hs
      simp [Node.get]
  | cons k ptail ih =>
      cases root with
      | file c0 => simp [Node.setNode] at hs
      | dir es =>
          cases ptail with
          | nil =>
              simp only [Node.setNode] at hs
              cases hs
              simp [Node.get, lookup_set_self]
          | cons k' rest =>
              cases hl : es.lookup k with
              | none => simp [Node.setNode, hl] at hs
              | some child =>
                  simp only [Node.setNode, hl] at hs
                  cases hcs : child.setNode (k' :: rest) v with
                  | error e => rw [hcs, exbind_err] at hs; simp at hs
                  | ok child' =>
                      rw [hcs, exbind_ok] at hs
                      cases hs
                      simp [Node.get, lookup_set_self, ih _ _ hcs]

/-- When the target path already resolves, setNode succeeds. -/
theorem setNode_ok_exists (p : List String) (root n v : Node)
    (hg : root.get p = some n) : ∃ r', root.setNode p v = .ok r' := by
  induction p generalizing root n with
  | nil => exact ⟨v, by simp [Node.setNode]⟩
  | cons k ptail ih =>
      cases root with
      | file c0 => simp [Node.get] at hg
      | dir es =>
          cases hl : es.lookup k with
          | none => simp [Node.get, hl] at hg
          | some child =>
              simp only [Node.get, hl] at hg
              cases ptail with
              | nil => exact ⟨.dir (es.set k v), by simp [Node.setNode, hl]⟩
              | cons k' rest =>
                  obtain ⟨r₁, h₁⟩ := ih child n hg
                  refine ⟨.dir (es.set k r₁), ?_⟩
                  simp only [Node.setNode, hl]
                  rw [h₁, exbind_ok]

/-! Lemmas about the recursive copy. -/

mutual
/-- Deep well-formedness of a tree as a filesystem image: every directory
level lists pairwise distinct names (true of any real directory). -/
def Node.wfb : Node → Bool
  | .file _ => true
  | .dir es => es.wfb
/-- Well-formedness of a directory listing and of every subtree in it. -/
def Entries.wfb : Entries → Bool
  | .nil => true
  | .cons k v rest => !rest.hasName k && v.wfb && rest.wfb
end

/-- The copy loop never touches a destination entry whose name does not
occur among the source entries. -/
theorem copy_lookup_frame_absent (j : String) (u : Bool) (es : Entries) :
    ∀ des des', copyEntries es des u = .ok des' → es.hasName j = false →
      des'.lookup j = des.lookup j := by
  induction es using entriesInd with
  | hnil =>
      intro des des' h _
      simp only [copyEntries] at h
      cases h
      rfl
  | hcons name n rest ih =>
      intro des des' h hh
      simp only [Entries.hasName, Bool.or_eq_false_iff] at hh
      have hnej : name ≠ j := by simpa using hh.1
      by_cases hex : shouldExclude name = true
      · simp only [copyEntries, hex, if_true] at h
        exact ih des des' h hh.2
      · simp only [Bool.not_eq_true] at hex
        by_cases hp : (u && shouldPreserve name && (des.lookup name).isSome) = true
        · simp only [copyEntries, hex, Bool.false_eq_true, if_false, hp, if_true] at h
          exact ih des des' h hh.2
        · simp only [Bool.not_eq_true] at hp
          cases n with
          | dir nes =>
              simp only [copyEntries, hex, Bool.false_eq_true, if_false, hp] at h
              cases hcd : copyDirectoryRecursive (.dir nes) (des.lookup name) u with
              | error e => rw [hcd, exbind_err] at h; simp at h
              | ok sub =>
                  rw [hcd, exbind_ok] at h
                  rw [ih _ _ h hh.2, lookup_set_ne _ _ _ _ (Ne.symm hnej)]
          | file c =>
              simp only [copyEntries, hex, Bool.false_eq_true, if_false, hp] at h
              cases hl : des.lookup name with
              | none =>
                  rw [hl] at h
                  rw [ih _ _ h hh.2, lookup_set_ne _ _ _ _ (Ne.symm hnej)]
              | some dn =>
                  cases dn with
                  | file c1 =>
                      rw [hl] at h
                      rw [ih _ _ h hh.2, lookup_set_ne _ _ _ _ (Ne.symm hnej)]
                  | dir des1 => rw [hl] at h; simp at h

/-- The copy loop never touches a destination entry of an excluded name:
every same-named source entry is skipped by the exclusion test. -/
theorem copy_lookup_frame_excluded (j : String) (u : Bool) (es : Entries)
    (hexj : shouldExclude j = true) :
    ∀ des des', copyEntries es des u = .ok des' →
      des'.lookup j = des.lookup j := by
  induction es using entriesInd with
  | hnil =>
      intro des des' h
      simp only [copyEntries] at h
      cases h
      rfl
  | hcons name n rest ih =>
      intro des des' h
      by_cases hex : shouldExclude name = true
      · simp only [copyEntries, hex, if_true] at h
        exact ih des des' h
      · have hnej : name ≠ j := fun hcontra => by
          rw [hcontra] at hex; exact hex hexj
        simp only [Bool.not_eq_true] at hex
        by_cases hp : (u && shouldPreserve name && (des.lookup name).isSome) = true
        · simp only [copyEntries, hex, Bool.false_eq_true, if_false, hp, if_true] at h
          exact ih des des' h
        · simp only [Bool.not_eq_true] at hp
          cases n with
          | dir nes =>
              simp only [copyEntries, hex, Bool.false_eq_true, if_false, hp] at h
              cases hcd : copyDirectoryRecursive (.dir nes) (des.lookup name) u with
              | error e => rw [hcd, exbind_err] at h; simp at h
              | ok sub =>
                  rw [hcd, exbind_ok] at h
                  rw [ih _ _ h, lookup_set_ne _ _ _ _ (Ne.symm hnej)]
          | file c =>
              simp only [copyEntries, hex, Bool.false_eq_true, if_false, hp] at h
              cases hl : des.lookup name with
              | none =>
                  rw [hl] at h
                  rw [ih _ _ h, lookup_set_ne _ _ _ _ (Ne.symm hnej)]
              | some dn =>
                  cases dn with
                  | file c1 =>
                      rw [hl] at h
                      rw [ih _ _ h, lookup_set_ne _ _ _ _ (Ne.symm hnej)]
                  | dir des1 => rw [hl] at h; simp at h

/-- During an update the copy loop leaves a destination entry of a
preserved name untouched whenever it already exists: a same-named source
entry is skipped either by the exclusion test or by the preservation
test. -/
theorem copy_preserve_lookup (j : String) (v : Node) (es : Entries)
    (hp : shouldPreserve j = true) :
    ∀ des des', copyEntries es des true = .ok des' →
      des.lookup j = some v → des'.lookup j = some v := by
  induction es using entriesInd with
  | hnil =>
      intro des des' h hl
      simp only [copyEntries] at h
      cases h
      exact hl
  | hcons name n rest ih =>
      intro des des' h hl
      by_cases hex : shouldExclude name = true
      · simp only [copyEntries, hex, if_true] at h
        exact ih des des' h hl
      · by_cases hnj : name = j
        · subst hnj
          have hsk : (true && shouldPreserve name && (des.lookup name).isSome) = true := by
            simp [hp, hl]
          simp only [Bool.not_eq_true] at hex
          simp only [copyEntries, hex, Bool.false_eq_true, if_false, hsk, if_true] at h
          exact ih des des' h hl
        · simp only [Bool.not_eq_true] at hex
          by_cases hpr : (true && shouldPreserve name && (des.lookup name).isSome) = true
          · simp only [copyEntries, hex, Bool.false_eq_true, if_false, hpr, if_true] at h
            exact ih des des' h hl
          · simp only [Bool.not_eq_true] at hpr
            cases n with
            | dir nes =>
                simp only [copyEntries, hex, Bool.false_eq_true, if_false, hpr] at h
                cases hcd : copyDirectoryRecursive (.dir nes) (des.lookup name) true with
                | error e => rw [hcd, exbind_err] at h; simp at h
                | ok sub =>
                    rw [hcd, exbind_ok] at h
                    exact ih _ _ h (by rw [lookup_set_ne _ _ _ _ (Ne.symm hnj)]; exact hl)
            | file c =>
                simp only [copyEntries, hex, Bool.false_eq_true, if_false, hpr] at h
                cases hlk : des.lookup name with
                | none =>
                    rw [hlk] at h
                    exact ih _ _ h (by rw [lookup_set_ne _ _ _ _ (Ne.symm hnj)]; exact hl)
                | some dn =>
                    cases dn with
                    | file c1 =>
                        rw [hlk] at h
                        exact ih _ _ h
                          (by rw [lookup_set_ne _ _ _ _ (Ne.symm hnj)]; exact hl)
                    | dir des1 => rw [hlk] at h; simp at h

theorem lookup_none_hasName (es : Entries) (j : String)
    (h : es.lookup j = none) : es.hasName j = false := by
  induction es using entriesInd with
  | hnil => simp [Entries.hasName]
  | hcons k v rest ih =>
      by_cases hk : k = j
      · simp [Entries.lookup, hk] at h
      · simp only [Entries.lookup, hk, if_false] at h
        simp [Entries.hasName, hk, ih h]

theorem wfb_lookup (es : Entries) (j : String) (v : Node)
    (hwf : es.wfb = true) (h : es.lookup j = some v) : v.wfb = true := by
  induction es using entriesInd with
  | hnil => simp [Entries.lookup] at h
  | hcons k n rest ih =>
      simp only [Entries.wfb, Bool.and_eq_true] at hwf
      by_cases hk : k = j
      · simp only [Entries.lookup, hk, if_true] at h
        cases h
        exact hwf.1.2
      · simp only [Entries.lookup, hk, if_false] at h
        exact ih hwf.2 h

theorem copyDir_dir_ok (es des : Entries) (u : Bool) (d' : Node)
    (h : copyDirectoryRecursive (.dir es) (some (.dir des)) u = .ok d') :
    ∃ des', copyEntries es des u = .ok des' ∧ d' = .dir des' := by
  simp only [copyDirectoryRecursive] at h
  cases hce : copyEntries es des u with
  | error e => rw [hce] at h; simp [Except.map] at h
  | ok des' =>
      rw [hce] at h
      simp only [Except.map] at h
      cases h
      exact ⟨des', rfl, rfl⟩

/-- During an update, a destination entry with a preserved name is kept
with its exact contents at any depth of the copied tree. -/
theorem copy_preserve_path (k : String) (hp : shouldPreserve k = true)
    (pre : List String) :
    ∀ s d d' v, copyDirectoryRecursive s (some d) true = .ok d' →
      d.get (pre ++ [k]) = some v → d'.get (pre ++ [k]) = some v := by
  induction pre with
  | nil =>
      intro s d d' v hcd hg
      cases d with
      | file c => simp [Node.get] at hg
      | dir des =>
          simp only [List.nil_append] at hg ⊢
          cases hl : des.lookup k with
          | none => simp [Node.get, hl] at hg
          | some dk =>
              simp only [Node.get, hl] at hg
              cases hg
              cases s with
              | file c => simp [copyDirectoryRecursive] at hcd
              | dir es =>
                  obtain ⟨des', hce, rfl⟩ := copyDir_dir_ok es des true d' hcd
                  simp [Node.get, copy_preserve_lookup k v es hp des des' hce hl]
  | cons j pre ih =>
      intro s d d' v hcd hg
      cases d with
      | file c => simp [Node.get] at hg
      | dir des =>
          cases hl : des.lookup j with
          | none => simp [Node.get, hl] at hg
          | some dj =>
              rw [List.cons_append] at hg
              simp only [Node.get, hl] at hg
              cases s with
              | file c => simp [copyDirectoryRecursive] at hcd
              | dir es =>
                  obtain ⟨des', hce, rfl⟩ := copyDir_dir_ok es des true d' hcd
                  have inner : ∀ es₀ des₀ des₀',
                      copyEntries es₀ des₀ true = .ok des₀' →
                      ∀ djc, des₀.lookup j = some djc →
                        djc.get (pre ++ [k]) = some v →
                      ∃ dj', des₀'.lookup j = some dj' ∧
                        dj'.get (pre ++ [k]) = some v := by
                    intro es₀
                    induction es₀ using entriesInd with
                    | hnil =>
                        intro des₀ des₀' hce₀ djc hlc hgc
                        simp only [copyEntries] at hce₀
                        cases hce₀
                        exact ⟨djc, hlc, hgc⟩
                    | hcons name n rest ihe =>
                        intro des₀ des₀' hce₀ djc hlc hgc
                        by_cases hex : shouldExclude name = true
                        · simp only [copyEntries, hex, if_true] at hce₀
                          exact ihe des₀ des₀' hce₀ djc hlc hgc
                        · simp only [Bool.not_eq_true] at hex
                          by_cases hpr : (true && shouldPreserve name &&
                              (des₀.lookup name).isSome) = true
                          · simp only [copyEntries, hex, Bool.false_eq_true,
                              if_false, hpr, if_true] at hce₀
                            exact ihe des₀ des₀' hce₀ djc hlc hgc
                          · simp only [Bool.not_eq_true] at hpr
                            by_cases hnj : name = j
                            · subst hnj
                              cases n with
                              | dir nes =>
                                  simp only [copyEntries, hex, Bool.false_eq_true,
                                    if_false, hpr] at hce₀
                                  cases hcd2 : copyDirectoryRecursive (.dir nes)
                                      (des₀.lookup name) true with
                                  | error e =>
                                      rw [hcd2, exbind_err] at hce₀
                                      simp at hce₀
                                  | ok sub =>
                                      rw [hcd2, exbind_ok] at hce₀
                                      rw [hlc] at hcd2
                                      have hsub := ih (.dir nes) djc sub v hcd2 hgc
                                      exact ihe _ _ hce₀ sub
                                        (lookup_set_self _ _ _) hsub
                              | file c =>
                                  simp only [copyEntries, hex, Bool.false_eq_true,
                                    if_false, hpr] at hce₀
                                  cases djc with
                                  | file cc =>
                                      obtain ⟨a, as, hpe⟩ :=
                                        List.exists_cons_of_ne_nil
                                          (show pre ++ [k] ≠ [] by simp)
                                      rw [hpe] at hgc
                                      simp [Node.get] at hgc
                                  | dir djes =>
                                      rw [hlc] at hce₀
                                      simp at hce₀
                            · cases n with
                              | dir nes =>
                                  simp only [copyEntries, hex, Bool.false_eq_true,
                                    if_false, hpr] at hce₀
                                  cases hcd2 : copyDirectoryRecursive (.dir nes)
                                      (des₀.lookup name) true with
                                  | error e =>
                                      rw [hcd2, exbind_err] at hce₀
                                      simp at hce₀
                                  | ok sub =>
                                      rw [hcd2, exbind_ok] at hce₀
                                      exact ihe _ _ hce₀ djc
                                        (by rw [lookup_set_ne _ _ _ _ (Ne.symm hnj)]
                                            exact hlc) hgc
                              | file c =>
                                  simp only [copyEntries, hex, Bool.false_eq_true,
                                    if_false, hpr] at hce₀
                                  cases hlk : des₀.lookup name with
                                  | none =>
                                      rw [hlk] at hce₀
                                      exact ihe _ _ hce₀ djc
                                        (by rw [lookup_set_ne _ _ _ _ (Ne.symm hnj)]
                                            exact hlc) hgc
                                  | some dn =>
                                      cases dn with
                                      | file c1 =>
                                          rw [hlk] at hce₀
                                          exact ihe _ _ hce₀ djc
                                            (by rw [lookup_set_ne _ _ _ _ (Ne.symm hnj)]
                                                exact hlc) hgc
                                      | dir des1 =>
                                          rw [hlk] at hce₀
                                          simp at hce₀
                  obtain ⟨dj', hl', hg'⟩ := inner es des des' hce dj hl hg
                  rw [List.cons_append]
                  simp [Node.get, hl', hg']

/-- A sync never deletes or alters a destination file at a path that is
absent from the (well-formed) source tree: the loop iterates only over
source entries. -/
theorem copy_frame_file (u : Bool) (q : List String) :
    ∀ s d d' c, Node.wfb s = true →
      copyDirectoryRecursive s (some d) u = .ok d' →
      s.get q = none → d.get q = some (.file c) →
      d'.get q = some (.file c) := by
  induction q with
  | nil =>
      intro s d d' c _ _ hs _
      simp [Node.get] at hs
  | cons j qtail ih =>
      intro s d d' c hwf hcd hs hg
      cases d with
      | file c0 => simp [Node.get] at hg
      | dir des =>
          cases hl : des.lookup j with
          | none => simp [Node.get, hl] at hg
          | some dj =>
              simp only [Node.get, hl] at hg
              cases s with
              | file c1 => simp [copyDirectoryRecursive] at hcd
              | dir es =>
                  obtain ⟨des', hce, rfl⟩ := copyDir_dir_ok es des u d' hcd
                  have hwf' : es.wfb = true := hwf
                  cases hsl : es.lookup j with
                  | none =>
                      have hfr := copy_lookup_frame_absent j u es des des' hce
                        (lookup_none_hasName es j hsl)
                      simp [Node.get, hfr, hl, hg]
                  | some sj =>
                      have hsj : sj.get qtail = none := by
                        simp only [Node.get, hsl] at hs
                        exact hs
                      have inner : ∀ es₀ des₀ des₀', es₀.wfb = true →
                          (∀ sj', es₀.lookup j = some sj' →
                            sj'.get qtail = none ∧ sj'.wfb = true) →
                          copyEntries es₀ des₀ u = .ok des₀' →
                          ∀ djc, des₀.lookup j = some djc →
                            djc.get qtail = some (.file c) →
                          ∃ dj', des₀'.lookup j = some dj' ∧
                            dj'.get qtail = some (.file c) := by
                        intro es₀
                        induction es₀ using entriesInd with
                        | hnil =>
                            intro des₀ des₀' _ _ hce₀ djc hlc hgc
                            simp only [copyEntries] at hce₀
                            cases hce₀
                            exact ⟨djc, hlc, hgc⟩
                        | hcons name n rest ihe =>
                            intro des₀ des₀' hwf₀ hcond hce₀ djc hlc hgc
                            simp only [Entries.wfb, Bool.and_eq_true] at hwf₀
                            have hcond' : name ≠ j →
                                ∀ sj', rest.lookup j = some sj' →
                                  sj'.get qtail = none ∧ sj'.wfb = true := by
                              intro hne sj' hlr
                              exact hcond sj' (by simp [Entries.lookup, hne, hlr])
                            by_cases hex : shouldExclude name = true
                            · simp only [copyEntries, hex, if_true] at hce₀
                              by_cases hnj : name = j
                              · subst hnj
                                have hrest : rest.lookup name = none :=
                                  hasName_false_lookup rest name
                                    (by simpa using hwf₀.1.1)
                                have hfr := copy_lookup_frame_absent name u rest
                                  des₀ des₀' hce₀
                                  (lookup_none_hasName rest name hrest)
                                exact ⟨djc, by rw [hfr]; exact hlc, hgc⟩
                              · exact ihe des₀ des₀' hwf₀.2 (hcond' hnj)
                                  hce₀ djc hlc hgc
                            · simp only [Bool.not_eq_true] at hex
                              by_cases hpr : (u && shouldPreserve name &&
                                  (des₀.lookup name).isSome) = true
                              · simp only [copyEntries, hex, Bool.false_eq_true,
                                  if_false, hpr, if_true] at hce₀
                                by_cases hnj : name = j
                                · subst hnj
                                  have hrest : rest.lookup name = none :=
                                    hasName_false_lookup rest name
                                      (by simpa using hwf₀.1.1)
                                  have hfr := copy_lookup_frame_absent name u rest
                                    des₀ des₀' hce₀
                                    (lookup_none_hasName rest name hrest)
                                  exact ⟨djc, by rw [hfr]; exact hlc, hgc⟩
                                · exact ihe des₀ des₀' hwf₀.2 (hcond' hnj)
                                    hce₀ djc hlc hgc
                              · simp only [Bool.not_eq_true] at hpr
                                by_cases hnj : name = j
                                · subst hnj
                                  obtain ⟨hsn, hswf⟩ := hcond n
                                    (by simp [Entries.lookup])
                                  cases n with
                                  | dir nes =>
                                      simp only [copyEntries, hex,
                                        Bool.false_eq_true, if_false, hpr] at hce₀
                                      cases hcd2 : copyDirectoryRecursive (.dir nes)
                                          (des₀.lookup name) u with
                                      | error e =>
                                          rw [hcd2, exbind_err] at hce₀
                                          simp at hce₀
                                      | ok sub =>
                                          rw [hcd2, exbind_ok] at hce₀
                                          rw [hlc] at hcd2
                                          have hsub := ih (.dir nes) djc sub c
                                            hswf hcd2 hsn hgc
                                          have hrest : rest.lookup name = none :=
                                            hasName_false_lookup rest name
                                              (by simpa using hwf₀.1.1)
                                          have hfr := copy_lookup_frame_absent name
                                            u rest _ _ hce₀
                                            (lookup_none_hasName rest name hrest)
                                          exact ⟨sub,
                                            by rw [hfr, lookup_set_self], hsub⟩
                                  | file cc =>
                                      cases qtail with
                                      | nil => simp [Node.get] at hsn
                                      | cons b bs =>
                                          cases djc with
                                          | file c2 => simp [Node.get] at hgc
                                          | dir djes =>
                                              simp only [copyEntries, hex,
                                                Bool.false_eq_true, if_false,
                                                hpr] at hce₀
                                              rw [hlc] at hce₀
                                              simp at hce₀
                                · cases n with
                                  | dir nes =>
                                      simp only [copyEntries, hex,
                                        Bool.false_eq_true, if_false, hpr] at hce₀
                                      cases hcd2 : copyDirectoryRecursive (.dir nes)
                                          (des₀.lookup name) u with
                                      | error e =>
                                          rw [hcd2, exbind_err] at hce₀
                                          simp at hce₀
                                      | ok sub =>
                                          rw [hcd2, exbind_ok] at hce₀
                                          exact ihe _ _ hwf₀.2 (hcond' hnj) hce₀ djc
                                            (by rw [lookup_set_ne _ _ _ _
                                                  (Ne.symm hnj)]
                                                exact hlc) hgc
                                  | file cc =>
                                      simp only [copyEntries, hex,
                                        Bool.false_eq_true, if_false, hpr] at hce₀
                                      cases hlk : des₀.lookup name with
                                      | none =>
                                          rw [hlk] at hce₀
                                          exact ihe _ _ hwf₀.2 (hcond' hnj) hce₀ djc
                                            (by rw [lookup_set_ne _ _ _ _
                                                  (Ne.symm hnj)]
                                                exact hlc) hgc
                                      | some dn =>
                                          cases dn with
                                          | file c1 =>
                                              rw [hlk] at hce₀
                                              exact ihe _ _ hwf₀.2 (hcond' hnj) hce₀
                                                djc
                                                (by rw [lookup_set_ne _ _ _ _
                                                      (Ne.symm hnj)]
                                                    exact hlc) hgc
                                          | dir des1 =>
                                              rw [hlk] at hce₀
                                              simp at hce₀
                      have hcondtop : ∀ sj', es.lookup j = some sj' →
                          sj'.get qtail = none ∧ sj'.wfb = true := by
                        intro sj' hlr
                        rw [hsl] at hlr
                        cases hlr
                        exact ⟨hsj, wfb_lookup es j _ hwf' hsl⟩
                      obtain ⟨dj', hl', hg'⟩ := inner es des des' hwf' hcondtop
                        hce dj hl hg
                      simp [Node.get, hl', hg']

theorem isPrefixB_append (a b c : List String) :
    isPrefixB (a ++ b) (a ++ c) = isPrefixB b c := by
  induction a with
  | nil => rfl
  | cons x xs ih => simp [isPrefixB, ih]

theorem isPrefixB_single_false (rest : List String) (x : String)
    (h1 : rest ≠ []) (h2 : rest ≠ [x]) : isPrefixB rest [x] = false := by
  cases rest with
  | nil => exact absurd rfl h1
  | cons a as =>
      cases as with
      | nil =>
          by_cases hax : a = x
          · exact absurd (by rw [hax]) h2
          · simp [isPrefixB, hax]
      | cons b bs => simp [isPrefixB]

/-- Destructuring of a successful updateProject run into its intermediate
steps. -/
theorem updateProject_ok (root : Node) (p s : List String) (now : String)
    (hs : (updateProject root p s now).1.success = true) :
    ∃ root₁ v h root₂,
      existsSync root s = true ∧
      existsSync root (p ++ [".auto-claude"]) = true ∧
      copyDirAt root s (p ++ [".auto-claude"]) true = .ok root₁ ∧
      readSourceVersion root₁ s = .ok v ∧
      calculateDirectoryHash (root₁.get s) = .ok h ∧
      writeVersionMetadata root₁ (p ++ [".auto-claude"])
        { version := v, sourceHash := h, sourcePath := s,
          initializedAt :=
            (match readVersionMetadata root₁ (p ++ [".auto-claude"]) with
              | some m => if m.initializedAt = "" then now else m.initializedAt
              | none => now),
          updatedAt := now } = .ok root₂ ∧
      (updateProject root p s now).2 = root₂ := by
  cases h1 : existsSync root s with
  | false => simp [updateProject, h1] at hs
  | true =>
      cases h2 : existsSync root (p ++ [".auto-claude"]) with
      | false => simp [updateProject, h1, h2] at hs
      | true =>
          simp only [updateProject, h1, h2, Bool.not_true, Bool.false_eq_true,
            if_false] at hs ⊢
          cases hc : copyDirAt root s (p ++ [".auto-claude"]) true with
          | error e => rw [hc, exbind_err] at hs; simp at hs
          | ok root₁ =>
              rw [hc, exbind_ok] at hs
              rw [exbind_ok]
              cases hv : readSourceVersion root₁ s with
              | error e => rw [hv, exbind_err] at hs; simp at hs
              | ok v =>
                  rw [hv, exbind_ok] at hs
                  rw [exbind_ok]
                  cases hh : calculateDirectoryHash (root₁.get s) with
                  | error e => rw [hh, exbind_err] at hs; simp at hs
                  | ok hsh =>
                      rw [hh, exbind_ok] at hs
                      rw [exbind_ok]
                      cases hw : writeVersionMetadata root₁ (p ++ [".auto-claude"])
                          { version := v, sourceHash := hsh, sourcePath := s,
                            initializedAt :=
                              (match readVersionMetadata root₁
                                  (p ++ [".auto-claude"]) with
                                | some m =>
                                    if m.initializedAt = "" then now
                                    else m.initializedAt
                                | none => now),
                            updatedAt := now } with
                      | error e =>
                          rw [hw, exbind_err] at hs
                          simp at hs
                      | ok root₂ =>
                          rw [hw, exbind_ok] at hs
                          rw [exbind_ok]
                          exact ⟨root₁, v, hsh, root₂, by simp [h1], by simp [h2],
                            by simp [hc], by simp [hv], by simp [hh],
                            by simp [hw], rfl⟩

/-- Destructuring of a successful initializeProject run into its
intermediate steps. -/
theorem initializeProject_ok (root : Node) (p s : List String) (now : String)
    (hs : (initializeProject root p s now).1.success = true) :
    ∃ root₁ root₂ root₃ root₄ root₅ v h root₆,
      existsSync root s = true ∧
      existsSync root p = true ∧
      existsSync root (p ++ [".auto-claude"]) = false ∧
      copyDirAt root s (p ++ [".auto-claude"]) false = .ok root₁ ∧
      createDataDir root₁ (p ++ [".auto-claude"]) "specs" = .ok root₂ ∧
      createDataDir root₂ (p ++ [".auto-claude"]) "roadmap" = .ok root₃ ∧
      createDataDir root₃ (p ++ [".auto-claude"]) "ideation" = .ok root₄ ∧
      copyEnvStep root₄ (p ++ [".auto-claude"]) = .ok root₅ ∧
      readSourceVersion root₅ s = .ok v ∧
      calculateDirectoryHash (root₅.get s) = .ok h ∧
      writeVersionMetadata root₅ (p ++ [".auto-claude"])
        { version := v, sourceHash := h, sourcePath := s,
          initializedAt := now, updatedAt := now } = .ok root₆ ∧
      (initializeProject root p s now).2 = root₆ := by
  cases h1 : existsSync root s with
  | false => simp [initializeProject, h1] at hs
  | true =>
      cases h2 : existsSync root p with
      | false => simp [initializeProject, h1, h2] at hs
      | true =>
          cases h3 : existsSync root (p ++ [".auto-claude"]) with
          | true => simp [initializeProject, h1, h2, h3] at hs
          | false =>
              simp only [initializeProject, h1, h2, h3, Bool.not_true,
                Bool.not_false, Bool.false_eq_true, if_false, if_true] at hs ⊢
              cases hc : copyDirAt root s (p ++ [".auto-claude"]) false with
              | error e => rw [hc, exbind_err] at hs; simp at hs
              | ok root₁ =>
                  rw [hc, exbind_ok] at hs
                  rw [exbind_ok]
                  cases hd1 : createDataDir root₁ (p ++ [".auto-claude"]) "specs" with
                  | error e => rw [hd1, exbind_err] at hs; simp at hs
                  | ok root₂ =>
                      rw [hd1, exbind_ok] at hs
                      rw [exbind_ok]
                      cases hd2 : createDataDir root₂ (p ++ [".auto-claude"])
                          "roadmap" with
                      | error e => rw [hd2, exbind_err] at hs; simp at hs
                      | ok root₃ =>
                          rw [hd2, exbind_ok] at hs
                          rw [exbind_ok]
                          cases hd3 : createDataDir root₃ (p ++ [".auto-claude"])
                              "ideation" with
                          | error e => rw [hd3, exbind_err] at hs; simp at hs
                          | ok root₄ =>
                              rw [hd3, exbind_ok] at hs
                              rw [exbind_ok]
                              cases he : copyEnvStep root₄ (p ++ [".auto-claude"]) with
                              | error e => rw [he, exbind_err] at hs; simp at hs
                              | ok root₅ =>
                                  rw [he, exbind_ok] at hs
                                  rw [exbind_ok]
                                  cases hv : readSourceVersion root₅ s with
                                  | error e => rw [hv, exbind_err] at hs; simp at hs
                                  | ok v =>
                                      rw [hv, exbind_ok] at hs
                                      rw [exbind_ok]
                                      cases hh : calculateDirectoryHash
                                          (root₅.get s) with
                                      | error e =>
                                          rw [hh, exbind_err] at hs
                                          simp at hs
                                      | ok hsh =>
                                          rw [hh, exbind_ok] at hs
                                          rw [exbind_ok]
                                          cases hw : writeVersionMetadata root₅
                                              (p ++ [".auto-claude"])
                                              { version := v, sourceHash := hsh,
                                                sourcePath := s,
                                                initializedAt := now,
                                                updatedAt := now } with
                                          | error e =>
                                              rw [hw, exbind_err] at hs
                                              simp at hs
                                          | ok root₆ =>
                                              rw [hw, exbind_ok] at hs
                                              rw [exbind_ok]
                                              exact ⟨root₁, root₂, root₃, root₄,
                                                root₅, v, hsh, root₆, by simp [h1],
                                                by simp [h2], by simp [h3],
                                                by simp [hc], by simp [hd1],
                                                by simp [hd2], by simp [hd3],
                                                by simp [he], by simp [hv],
                                                by simp [hh], by simp [hw],
                                                rfl⟩

theorem readVersionMetadata_some (root : Node) (q : List String)
    (m : VersionMetadata) (h : readVersionMetadata root q = some m) :
    root.get (q ++ [".version.json"]) = some (.file (.json m)) := by
  unfold readVersionMetadata at h
  cases hg : root.get (q ++ [".version.json"]) with
  | none => rw [hg] at h; simp at h
  | some n =>
      rw [hg] at h
      cases n with
      | dir es => simp at h
      | file c =>
          cases c with
          | text s => simp at h
          | json m' => simp at h; rw [h]

/-! Claim theorems. -/

/-- First line of a string (up to the first newline). -/
def firstLine (s : String) : String :=
  String.mk (s.data.takeWhile (fun ch => ch ≠ '\n'))

/-- Spec-side reading of the version marker, following the words of the
specification for comparison with the implementation: the first line of the
file, trimmed. -/
def specFirstLineTrimmed (s : String) : String := jsTrim (firstLine s)

/-- Claim C8, counterexample: on a VERSION file containing more than one
line, readSourceVersion returns the whole contents trimmed, not the first
line trimmed as the claim states. -/
theorem c8_counterexample :
    readSourceVersion
      (.dir (.cons "src"
        (.dir (.cons "VERSION" (.file (.text "1.0.0\nextra")) .nil)) .nil))
      ["src"] = .ok "1.0.0\nextra" ∧
    specFirstLineTrimmed "1.0.0\nextra" = "1.0.0" ∧
    ("1.0.0\nextra" : String) ≠ "1.0.0" := by
  refine ⟨?_, by decide, by decide⟩
  rfl

/-- Claim C8 (corrected): reading the source version returns the entire
contents of the version marker file trimmed of leading and trailing
whitespace when the file exists (this equals the first line trimmed only
when the file has a single line), and returns the string 0.0.0 without
raising an error when the file is absent. -/
theorem c8_readSourceVersion (root : Node) (sourcePath : List String) :
    (∀ c, root.get (sourcePath ++ ["VERSION"]) = some (.file c) →
      readSourceVersion root sourcePath = .ok (jsTrim c.bytes)) ∧
    (root.get (sourcePath ++ ["VERSION"]) = none →
      readSourceVersion root sourcePath = .ok "0.0.0") := by
  constructor
  · intro c h
    simp [readSourceVersion, h]
  · intro h
    simp [readSourceVersion, h]

/-- Claim C8 witness: the corrected statement evaluated on a concrete
present marker and on an absent one. -/
theorem c8_witness :
    readSourceVersion
      (.dir (.cons "s" (.dir (.cons "VERSION"
        (.file (.text " 2.1.0 ")) .nil)) .nil)) ["s"] =
      .ok (jsTrim (FileContent.bytes (.text " 2.1.0 "))) ∧
    readSourceVersion (.dir (.cons "s" (.dir .nil) .nil)) ["s"] = .ok "0.0.0" :=
  ⟨(c8_readSourceVersion _ ["s"]).1 (.text " 2.1.0 ") rfl,
   (c8_readSourceVersion _ ["s"]).2 rfl⟩

/-- Claim C3 (confirmed): initialize fails fast with no filesystem change
when the source bundle is missing, the project directory is missing, or an
installed instance already exists; and a second initialize after a
successful one fails and leaves the instance untouched. -/
theorem c3_initialize_fail_fast (root : Node) (p s : List String)
    (now now2 : String) :
    ((existsSync root s = false ∨ existsSync root p = false ∨
        existsSync root (p ++ [".auto-claude"]) = true) →
      (initializeProject root p s now).1.success = false ∧
        (initializeProject root p s now).2 = root) ∧
    ((initializeProject root p s now).1.success = true →
      (initializeProject (initializeProject root p s now).2 p s now2).1.success
          = false ∧
        (initializeProject (initializeProject root p s now).2 p s now2).2 =
          (initializeProject root p s now).2) := by
  constructor
  · intro h
    rcases h with h | h | h
    · simp [initializeProject, h]
    · cases hcs : existsSync root s <;> simp [initializeProject, hcs, h]
    · cases hcs : existsSync root s <;>
        cases hcp : existsSync root p <;>
          simp [initializeProject, hcs, hcp, h]
  · intro h
    obtain ⟨root₁, root₂, root₃, root₄, root₅, v, hsh, root₆, _, _, _, _, _, _,
      _, _, _, _, hw, hfin⟩ := initializeProject_ok root p s now h
    have hdot : ∃ es, root₆.get (p ++ [".auto-claude"]) = some (.dir es) :=
      (write_parents _ _ _ _ hw (p ++ [".auto-claude"]) [] ".version.json"
        rfl).2
    obtain ⟨es, hes⟩ := hdot
    have hex : existsSync root₆ (p ++ [".auto-claude"]) = true := by
      simp [existsSync, hes]
    rw [hfin]
    cases hcs : existsSync root₆ s <;>
      cases hcp : existsSync root₆ p <;>
        simp [initializeProject, hcs, hcp, hex]

/-- Claim C3 witness: both conjuncts evaluated on concrete filesystems: a
failing call on a world whose source bundle is missing, and a refused
second call after a concrete successful initialization. -/
theorem c3_witness :
    ((initializeProject (.dir (.cons "proj" (.dir .nil) .nil)) ["proj"] ["src"]
        "t0").1.success = false ∧
      (initializeProject (.dir (.cons "proj" (.dir .nil) .nil)) ["proj"] ["src"]
        "t0").2 = .dir (.cons "proj" (.dir .nil) .nil)) ∧
    ((initializeProject
        (initializeProject
          (.dir (.cons "proj" (.dir .nil)
            (.cons "src" (.dir (.cons "VERSION" (.file (.text "1.0.0")) .nil))
              .nil)))
          ["proj"] ["src"] "t0").2 ["proj"] ["src"] "t1").1.success = false ∧
      (initializeProject
        (initializeProject
          (.dir (.cons "proj" (.dir .nil)
            (.cons "src" (.dir (.cons "VERSION" (.file (.text "1.0.0")) .nil))
              .nil)))
          ["proj"] ["src"] "t0").2 ["proj"] ["src"] "t1").2 =
        (initializeProject
          (.dir (.cons "proj" (.dir .nil)
            (.cons "src" (.dir (.cons "VERSION" (.file (.text "1.0.0")) .nil))
              .nil)))
          ["proj"] ["src"] "t0").2) :=
  ⟨(c3_initialize_fail_fast _ ["proj"] ["src"] "t0" "t1").1 (Or.inl (by decide)),
   (c3_initialize_fail_fast _ ["proj"] ["src"] "t0" "t1").2 (by decide)⟩

/-- Claim C1 (confirmed): with readable metadata and an existing source
bundle, checkVersion reports an update exactly when both the freshly
computed source hash differs from the stored sourceHash and the source
version string differs from the stored version; if only one differs,
updateAvailable is false. -/
theorem c1_updateAvailable (root : Node) (projectPath sourcePath : List String)
    (now v : String) (m : VersionMetadata) (ses : Entries)
    (hmd : readVersionMetadata root (projectPath ++ [".auto-claude"]) = some m)
    (hsrc : root.get sourcePath = some (.dir ses))
    (hver : readSourceVersion root sourcePath = .ok v) :
    checkVersion root projectPath sourcePath now =
      .ok ({ isInitialized := true, currentVersion := some m.version,
             sourceVersion := some v,
             updateAvailable :=
               decide (m.sourceHash ≠ hashChunks (normalizeTree (.dir ses))) &&
                 decide (m.version ≠ v),
             sourcePath := some (projectPath ++ [".auto-claude"]) }, root) ∧
    ((decide (m.sourceHash ≠ hashChunks (normalizeTree (.dir ses))) &&
        decide (m.version ≠ v)) = true ↔
      (hashChunks (normalizeTree (.dir ses)) ≠ m.sourceHash ∧
        v ≠ m.version)) := by
  have hget := readVersionMetadata_some root _ m hmd
  have hdot : existsSync root (projectPath ++ [".auto-claude"]) = true := by
    have := get_append_isSome root (projectPath ++ [".auto-claude"])
      [".version.json"] _ hget
    simpa [existsSync] using this
  have hs : existsSync root sourcePath = true := by simp [existsSync, hsrc]
  constructor
  · simp only [checkVersion, hdot, if_true, hmd]
    simp only [checkVersionResolved, hs, Bool.not_true, Bool.false_eq_true,
      if_false]
    rw [hver, exbind_ok]
    have hhash : calculateDirectoryHash (root.get sourcePath) =
        .ok (hashChunks (normalizeTree (.dir ses))) := by
      rw [hsrc]; rfl
    rw [hhash, exbind_ok]
    rfl
  · constructor
    · intro hb
      simp only [Bool.and_eq_true, decide_eq_true_eq] at hb
      exact ⟨fun hc => hb.1 hc.symm, fun hc => hb.2 hc.symm⟩
    · intro hb
      simp only [Bool.and_eq_true, decide_eq_true_eq]
      exact ⟨fun hc => hb.1 hc.symm, fun hc => hb.2 hc.symm⟩

/-- Claim C1 witness: a concrete project where the hash differs but the
version string is identical; the theorem applies and updateAvailable
evaluates to false. -/
theorem c1_witness :
    checkVersion
      (.dir (.cons "proj"
        (.dir (.cons ".auto-claude"
          (.dir (.cons ".version.json"
            (.file (.json { version := "1.0.0", sourceHash := ["old"],
                            sourcePath := ["src"], initializedAt := "t0",
                            updatedAt := "t0" })) .nil)) .nil))
        (.cons "src" (.dir (.cons "VERSION" (.file (.text "1.0.0")) .nil)) .nil)))
      ["proj"] ["src"] "t9" =
      .ok ({ isInitialized := true, currentVersion := some "1.0.0",
             sourceVersion := some "1.0.0",
             updateAvailable :=
               decide ((["old"] : List String) ≠
                   hashChunks (normalizeTree
                     (.dir (.cons "VERSION" (.file (.text "1.0.0")) .nil)))) &&
                 decide (("1.0.0" : String) ≠ "1.0.0"),
             sourcePath := some ["proj", ".auto-claude"] },
        .dir (.cons "proj"
          (.dir (.cons ".auto-claude"
            (.dir (.cons ".version.json"
              (.file (.json { version := "1.0.0", sourceHash := ["old"],
                              sourcePath := ["src"], initializedAt := "t0",
                              updatedAt := "t0" })) .nil)) .nil))
          (.cons "src" (.dir (.cons "VERSION" (.file (.text "1.0.0")) .nil))
            .nil))) :=
  (c1_updateAvailable
    (.dir (.cons "proj"
      (.dir (.cons ".auto-claude"
        (.dir (.cons ".version.json"
          (.file (.json { version := "1.0.0", sourceHash := ["old"],
                          sourcePath := ["src"], initializedAt := "t0",
                          updatedAt := "t0" })) .nil)) .nil))
      (.cons "src" (.dir (.cons "VERSION" (.file (.text "1.0.0")) .nil)) .nil)))
    ["proj"] ["src"] "t9" "1.0.0"
    { version := "1.0.0", sourceHash := ["old"], sourcePath := ["src"],
      initializedAt := "t0", updatedAt := "t0" }
    (.cons "VERSION" (.file (.text "1.0.0")) .nil) rfl rfl rfl).1

/-- Claim C10 (confirmed): whenever checkVersion returns a result, the
sourcePath field of the result is the installed instance path (the
conventional hidden directory inside the project) when the project is
initialized, and is absent otherwise; it is never the caller-supplied
source bundle path. -/
theorem checkVersionResolved_sourcePath (root₁ : Node)
    (installedPath sourcePath : List String) (m : VersionMetadata)
    (r : VersionCheckResult) (root' : Node)
    (h : checkVersionResolved root₁ installedPath sourcePath m =
      .ok (r, root')) :
    r.sourcePath = some installedPath ∧ r.isInitialized = true := by
  by_cases hs : existsSync root₁ sourcePath = true
  · simp only [checkVersionResolved, hs, Bool.not_true, Bool.false_eq_true,
      if_false] at h
    cases hv : readSourceVersion root₁ sourcePath with
    | error e => rw [hv, exbind_err] at h; simp at h
    | ok v =>
        rw [hv, exbind_ok] at h
        cases hh : calculateDirectoryHash (root₁.get sourcePath) with
        | error e => rw [hh, exbind_err] at h; simp at h
        | ok hsh =>
            rw [hh, exbind_ok] at h
            simp only [pure, Except.pure, Except.ok.injEq, Prod.mk.injEq] at h
            rw [← h.1]
            exact ⟨rfl, rfl⟩
  · have hs' : existsSync root₁ sourcePath = false := by simpa using hs
    simp only [checkVersionResolved, hs', Bool.not_false, if_true,
      Except.ok.injEq, Prod.mk.injEq] at h
    rw [← h.1]
    exact ⟨rfl, rfl⟩

theorem c10_sourcePath_field (root : Node) (p s : List String) (now : String)
    (r : VersionCheckResult) (root' : Node)
    (h : checkVersion root p s now = .ok (r, root')) :
    r.sourcePath = (if r.isInitialized then some (p ++ [".auto-claude"])
      else none) := by
  by_cases hex : existsSync root (p ++ [".auto-claude"]) = true
  · simp only [checkVersion, hex, if_true] at h
    cases hmd : readVersionMetadata root (p ++ [".auto-claude"]) with
    | some m =>
        rw [hmd] at h
        obtain ⟨h1, h2⟩ := checkVersionResolved_sourcePath _ _ _ _ _ _ h
        rw [h1, h2]
        rfl
    | none =>
        rw [hmd] at h
        by_cases hs2 : existsSync root s = true
        · simp only [hs2, if_true] at h
          cases hv : readSourceVersion root s with
          | error e => rw [hv, exbind_err] at h; simp at h
          | ok v =>
              rw [hv, exbind_ok] at h
              cases hh : calculateDirectoryHash
                  (root.get (p ++ [".auto-claude"])) with
              | error e => rw [hh, exbind_err] at h; simp at h
              | ok ih =>
                  rw [hh, exbind_ok] at h
                  cases hwv : writeVersionMetadata root (p ++ [".auto-claude"])
                      { version := v, sourceHash := ih, sourcePath := s,
                        initializedAt := now, updatedAt := now } with
                  | error e => rw [hwv, exbind_err] at h; simp at h
                  | ok root₁ =>
                      rw [hwv, exbind_ok] at h
                      obtain ⟨h1, h2⟩ :=
                        checkVersionResolved_sourcePath _ _ _ _ _ _ h
                      rw [h1, h2]
                      rfl
        · have hs2' : existsSync root s = false := by simpa using hs2
          simp only [hs2', Bool.false_eq_true, if_false, Except.ok.injEq,
            Prod.mk.injEq] at h
          rw [← h.1]
          rfl
  · have hex' : existsSync root (p ++ [".auto-claude"]) = false := by
      simpa using hex
    simp only [checkVersion, hex', Bool.false_eq_true, if_false,
      Except.ok.injEq, Prod.mk.injEq] at h
    rw [← h.1]
    rfl

/-- Claim C10 witness: a concrete initialized project whose result carries
the instance path, checked through the theorem. -/
theorem c10_witness :
    ({ isInitialized := true, currentVersion := some "1.0.0",
       sourceVersion := some "1.0.0", updateAvailable := false,
       sourcePath := some ["proj", ".auto-claude"] } :
        VersionCheckResult).sourcePath =
      (if ({ isInitialized := true, currentVersion := some "1.0.0",
             sourceVersion := some "1.0.0", updateAvailable := false,
             sourcePath := some ["proj", ".auto-claude"] } :
              VersionCheckResult).isInitialized
        then some (["proj"] ++ [".auto-claude"]) else none) :=
  c10_sourcePath_field
    (.dir (.cons "proj"
      (.dir (.cons ".auto-claude"
        (.dir (.cons ".version.json"
          (.file (.json { version := "1.0.0",
                          sourceHash := ["file:VERSION:5", "1.0.0"],
                          sourcePath := ["src"], initializedAt := "t0",
                          updatedAt := "t0" })) .nil)) .nil))
      (.cons "src" (.dir (.cons "VERSION" (.file (.text "1.0.0")) .nil)) .nil)))
    ["proj"] ["src"] "t9"
    { isInitialized := true, currentVersion := some "1.0.0",
      sourceVersion := some "1.0.0", updateAvailable := false,
      sourcePath := some ["proj", ".auto-claude"] }
    (.dir (.cons "proj"
      (.dir (.cons ".auto-claude"
        (.dir (.cons ".version.json"
          (.file (.json { version := "1.0.0",
                          sourceHash := ["file:VERSION:5", "1.0.0"],
                          sourcePath := ["src"], initializedAt := "t0",
                          updatedAt := "t0" })) .nil)) .nil))
      (.cons "src" (.dir (.cons "VERSION" (.file (.text "1.0.0")) .nil)) .nil)))
    rfl

theorem copyDirAt_ok_exists_dest (root : Node) (s dest : List String)
    (u : Bool) (root₁ : Node) (hex : existsSync root dest = true)
    (h : copyDirAt root s dest u = .ok root₁) :
    ∃ srcN d sub, root.get s = some srcN ∧ root.get dest = some d ∧
      copyDirectoryRecursive srcN (some d) u = .ok sub ∧
      root.setNode dest sub = .ok root₁ := by
  cases hg : root.get s with
  | none => simp [copyDirAt, hg] at h
  | some srcN =>
      cases hd : root.get dest with
      | none => simp [existsSync, hd] at hex
      | some d =>
          simp only [copyDirAt, hg, hex, if_true] at h
          rw [expure_bind] at h
          rw [hd] at h
          cases hcd : copyDirectoryRecursive srcN (some d) u with
          | error e => rw [hcd, exbind_err] at h; simp at h
          | ok sub =>
              rw [hcd, exbind_ok] at h
              exact ⟨srcN, d, sub, rfl, rfl, hcd, h⟩

/-- Claim C5 (confirmed): a preserved-name entry already present in the
installed instance keeps its exact contents across a successful update,
even though the source bundle carries a same-named entry: under update mode
the synchronizer skips a preserved source entry whenever the destination
entry exists (for the shipped configuration the entry is also excluded
outright, which skips it even earlier). -/
theorem c5_update_preserves (root : Node) (p s : List String) (now : String)
    (pre : List String) (name : String) (v : Node)
    (hp : shouldPreserve name = true)
    (hg : root.get (p ++ [".auto-claude"] ++ pre ++ [name]) = some v)
    (hs : (updateProject root p s now).1.success = true) :
    (updateProject root p s now).2.get
      (p ++ [".auto-claude"] ++ pre ++ [name]) = some v := by
  obtain ⟨root₁, v2, hsh, root₂, hex_s, hex_dot, hcopy, hver, hhash, hw, hfin⟩ :=
    updateProject_ok root p s now hs
  obtain ⟨srcN, d, sub, hgs, hgd, hcd, hsn⟩ :=
    copyDirAt_ok_exists_dest root s (p ++ [".auto-claude"]) true root₁
      hex_dot hcopy
  have hga : root.get ((p ++ [".auto-claude"]) ++ (pre ++ [name])) = some v := by
    rw [← List.append_assoc]
    exact hg
  rw [get_append, hgd] at hga
  have hga2 : d.get (pre ++ [name]) = some v := hga
  have hsub : sub.get (pre ++ [name]) = some v :=
    copy_preserve_path name hp pre srcN d sub v hcd hga2
  have hr₁ : root₁.get ((p ++ [".auto-claude"]) ++ (pre ++ [name])) = some v := by
    rw [get_append, setNode_get _ _ _ _ hsn]
    simpa using hsub
  have hnp : isPrefixB ((p ++ [".auto-claude"]) ++ (pre ++ [name]))
      ((p ++ [".auto-claude"]) ++ [".version.json"]) = false := by
    rw [isPrefixB_append]
    apply isPrefixB_single_false
    · simp
    · intro hcontra
      cases pre with
      | nil =>
          simp at hcontra
          rw [hcontra] at hp
          simp [shouldPreserve, PRESERVE_ON_UPDATE] at hp
      | cons a as => simp at hcontra
  have hfr := write_frame _ _ _ _ _ hw hnp
  rw [hfin, List.append_assoc (p ++ [".auto-claude"]) pre [name], hfr, hr₁]

/-- Claim C5 witness: a concrete update where the instance has a local
specs directory and the bundle ships a different one; the local one
survives byte-identically. -/
theorem c5_witness :
    (updateProject
      (.dir (.cons "proj"
        (.dir (.cons ".auto-claude"
          (.dir (.cons ".version.json"
            (.file (.json { version := "1.0.0", sourceHash := ["h0"],
                            sourcePath := ["src"], initializedAt := "t0",
                            updatedAt := "t0" }))
            (.cons "specs"
              (.dir (.cons "my.md" (.file (.text "mine")) .nil)) .nil))) .nil))
        (.cons "src"
          (.dir (.cons "VERSION" (.file (.text "2.0.0"))
            (.cons "specs"
              (.dir (.cons "other.md" (.file (.text "theirs")) .nil)) .nil)))
          .nil)))
      ["proj"] ["src"] "t1").2.get
        (["proj"] ++ [".auto-claude"] ++ [] ++ ["specs"]) =
      some (.dir (.cons "my.md" (.file (.text "mine")) .nil)) :=
  c5_update_preserves
    (.dir (.cons "proj"
      (.dir (.cons ".auto-claude"
        (.dir (.cons ".version.json"
          (.file (.json { version := "1.0.0", sourceHash := ["h0"],
                          sourcePath := ["src"], initializedAt := "t0",
                          updatedAt := "t0" }))
          (.cons "specs"
            (.dir (.cons "my.md" (.file (.text "mine")) .nil)) .nil))) .nil))
      (.cons "src"
        (.dir (.cons "VERSION" (.file (.text "2.0.0"))
          (.cons "specs"
            (.dir (.cons "other.md" (.file (.text "theirs")) .nil)) .nil)))
        .nil)))
    ["proj"] ["src"] "t1" [] "specs"
    (.dir (.cons "my.md" (.file (.text "mine")) .nil))
    (by decide) rfl (by decide)

/-- Claim C2, counterexample: the metadata sidecar .version.json is present
in the instance and absent from the source bundle, yet a successful update
rewrites it (fresh version, hash and updatedAt), so it is not byte-identical
afterwards; the claim as stated is false for that file. -/
theorem c2_counterexample :
    (updateProject
      (.dir (.cons "proj" (.dir (.cons ".auto-claude"
        (.dir (.cons ".version.json"
          (.file (.json { version := "1.0.0", sourceHash := ["h0"],
                          sourcePath := ["src"], initializedAt := "A",
                          updatedAt := "t0" })) .nil)) .nil))
        (.cons "src" (.dir (.cons "VERSION" (.file (.text "2.0.0")) .nil))
          .nil)))
      ["proj"] ["src"] "t1").1.success = true ∧
    (Node.dir (.cons "proj" (.dir (.cons ".auto-claude"
        (.dir (.cons ".version.json"
          (.file (.json { version := "1.0.0", sourceHash := ["h0"],
                          sourcePath := ["src"], initializedAt := "A",
                          updatedAt := "t0" })) .nil)) .nil))
        (.cons "src" (.dir (.cons "VERSION" (.file (.text "2.0.0")) .nil))
          .nil))).get
      ["proj", ".auto-claude", ".version.json"] =
      some (.file (.json { version := "1.0.0", sourceHash := ["h0"],
                           sourcePath := ["src"], initializedAt := "A",
                           updatedAt := "t0" })) ∧
    (Node.dir (.cons "VERSION" (.file (.text "2.0.0")) .nil)).get
      [".version.json"] = none ∧
    (updateProject
      (.dir (.cons "proj" (.dir (.cons ".auto-claude"
        (.dir (.cons ".version.json"
          (.file (.json { version := "1.0.0", sourceHash := ["h0"],
                          sourcePath := ["src"], initializedAt := "A",
                          updatedAt := "t0" })) .nil)) .nil))
        (.cons "src" (.dir (.cons "VERSION" (.file (.text "2.0.0")) .nil))
          .nil)))
      ["proj"] ["src"] "t1").2.get
      ["proj", ".auto-claude", ".version.json"] ≠
      some (.file (.json { version := "1.0.0", sourceHash := ["h0"],
                           sourcePath := ["src"], initializedAt := "A",
                           updatedAt := "t0" })) := by
  refine ⟨by decide, by decide, by decide, by decide⟩

/-- Claim C2 (corrected): during a successful update, every file of the
well-formed installed instance whose path is absent from the source bundle
stays present and byte-identical, with the single exception of the metadata
sidecar .version.json at the instance root, which updateProject rewrites
after the sync; the sync pass itself iterates only over source entries and
never deletes or prunes destination entries. -/
theorem c2_update_never_deletes (root : Node) (p s : List String)
    (now : String) (rest : List String) (c : FileContent) (srcN : Node)
    (hsrc : root.get s = some srcN) (hwf : Node.wfb srcN = true)
    (habsent : srcN.get rest = none) (hne : rest ≠ [])
    (hnv : rest ≠ [".version.json"])
    (hg : root.get (p ++ [".auto-claude"] ++ rest) = some (.file c))
    (hs : (updateProject root p s now).1.success = true) :
    (updateProject root p s now).2.get (p ++ [".auto-claude"] ++ rest) =
      some (.file c) := by
  obtain ⟨root₁, v2, hsh, root₂, hex_s, hex_dot, hcopy, hver, hhash, hw, hfin⟩ :=
    updateProject_ok root p s now hs
  obtain ⟨srcN', d, sub, hgs, hgd, hcd, hsn⟩ :=
    copyDirAt_ok_exists_dest root s (p ++ [".auto-claude"]) true root₁
      hex_dot hcopy
  have hsrceq : srcN' = srcN := by
    rw [hsrc] at hgs
    exact (Option.some.injEq _ _ ▸ hgs).symm
  subst hsrceq
  have hga : root.get ((p ++ [".auto-claude"]) ++ rest) = some (.file c) := hg
  rw [get_append, hgd] at hga
  have hga2 : d.get rest = some (.file c) := hga
  have hsub : sub.get rest = some (.file c) :=
    copy_frame_file true rest srcN' d sub c hwf hcd habsent hga2
  have hr₁ : root₁.get ((p ++ [".auto-claude"]) ++ rest) = some (.file c) := by
    rw [get_append, setNode_get _ _ _ _ hsn]
    simpa using hsub
  have hnp : isPrefixB ((p ++ [".auto-claude"]) ++ rest)
      ((p ++ [".auto-claude"]) ++ [".version.json"]) = false := by
    rw [isPrefixB_append]
    exact isPrefixB_single_false rest ".version.json" hne hnv
  have hfr := write_frame _ _ _ _ _ hw hnp
  rw [hfin, hfr, hr₁]

/-- Claim C2 witness: a concrete update in which a project-local file
absent from the bundle survives byte-identically. -/
theorem c2_witness :
    (updateProject
      (.dir (.cons "proj" (.dir (.cons ".auto-claude"
        (.dir (.cons ".version.json"
          (.file (.json { version := "1.0.0", sourceHash := ["h0"],
                          sourcePath := ["src"], initializedAt := "A",
                          updatedAt := "t0" }))
          (.cons "local.md" (.file (.text "keep me")) .nil))) .nil))
        (.cons "src" (.dir (.cons "VERSION" (.file (.text "2.0.0")) .nil))
          .nil)))
      ["proj"] ["src"] "t1").2.get
        (["proj"] ++ [".auto-claude"] ++ ["local.md"]) =
      some (.file (.text "keep me")) :=
  c2_update_never_deletes
    (.dir (.cons "proj" (.dir (.cons ".auto-claude"
      (.dir (.cons ".version.json"
        (.file (.json { version := "1.0.0", sourceHash := ["h0"],
                        sourcePath := ["src"], initializedAt := "A",
                        updatedAt := "t0" }))
        (.cons "local.md" (.file (.text "keep me")) .nil))) .nil))
      (.cons "src" (.dir (.cons "VERSION" (.file (.text "2.0.0")) .nil))
        .nil)))
    ["proj"] ["src"] "t1" ["local.md"] (.text "keep me")
    (.dir (.cons "VERSION" (.file (.text "2.0.0")) .nil))
    rfl (by decide) (by decide) (by decide) (by decide) rfl (by decide)

/-- Claim C6, counterexample: updateProject reads the existing metadata
only after the sync, so when the source bundle itself ships a
.version.json, the sync overwrites the sidecar first and the initializedAt
carried forward is the bundle value B, not the pre-update instance value
A. -/
theorem c6_counterexample :
    (updateProject
      (.dir (.cons "proj" (.dir (.cons ".auto-claude"
        (.dir (.cons ".version.json"
          (.file (.json { version := "1.0.0", sourceHash := ["h0"],
                          sourcePath := ["src"], initializedAt := "A",
                          updatedAt := "t0" })) .nil)) .nil))
        (.cons "src" (.dir (.cons "VERSION" (.file (.text "2.0.0"))
          (.cons ".version.json"
            (.file (.json { version := "0.9", sourceHash := ["hx"],
                            sourcePath := ["old"], initializedAt := "B",
                            updatedAt := "B0" })) .nil))) .nil)))
      ["proj"] ["src"] "t1").1.success = true ∧
    readVersionMetadata
      (.dir (.cons "proj" (.dir (.cons ".auto-claude"
        (.dir (.cons ".version.json"
          (.file (.json { version := "1.0.0", sourceHash := ["h0"],
                          sourcePath := ["src"], initializedAt := "A",
                          updatedAt := "t0" })) .nil)) .nil))
        (.cons "src" (.dir (.cons "VERSION" (.file (.text "2.0.0"))
          (.cons ".version.json"
            (.file (.json { version := "0.9", sourceHash := ["hx"],
                            sourcePath := ["old"], initializedAt := "B",
                            updatedAt := "B0" })) .nil))) .nil)))
      ["proj", ".auto-claude"] =
      some { version := "1.0.0", sourceHash := ["h0"], sourcePath := ["src"],
             initializedAt := "A", updatedAt := "t0" } ∧
    readVersionMetadata
      (updateProject
        (.dir (.cons "proj" (.dir (.cons ".auto-claude"
          (.dir (.cons ".version.json"
            (.file (.json { version := "1.0.0", sourceHash := ["h0"],
                            sourcePath := ["src"], initializedAt := "A",
                            updatedAt := "t0" })) .nil)) .nil))
          (.cons "src" (.dir (.cons "VERSION" (.file (.text "2.0.0"))
            (.cons ".version.json"
              (.file (.json { version := "0.9", sourceHash := ["hx"],
                              sourcePath := ["old"], initializedAt := "B",
                              updatedAt := "B0" })) .nil))) .nil)))
        ["proj"] ["src"] "t1").2 ["proj", ".auto-claude"] =
      some { version := "2.0.0",
             sourceHash := ["file:.version.json:21", "json(0.9;hx;old;B;B0)",
                            "file:VERSION:5", "2.0.0"],
             sourcePath := ["src"], initializedAt := "B",
             updatedAt := "t1" } ∧
    ("B" : String) ≠ "A" := by
  refine ⟨by decide, by decide, by decide, by decide⟩

/-- Claim C6 (corrected): provided the source bundle does not itself ship a
top-level .version.json (which the sync would copy over the sidecar before
the metadata is re-read) and the stored initializedAt is non-empty (the
code treats an empty string as absent), every successful update writes
metadata whose initializedAt equals the pre-update initializedAt and whose
updatedAt is the time of the current sync; every successful initialize
writes metadata with initializedAt = updatedAt = now. -/
theorem c6_timestamps (root : Node) (p s : List String) (now : String)
    (ses : Entries) (m : VersionMetadata)
    (hsrc : root.get s = some (.dir ses))
    (hnosc : ses.hasName ".version.json" = false)
    (hmd : readVersionMetadata root (p ++ [".auto-claude"]) = some m)
    (hinit : m.initializedAt ≠ "")
    (hs : (updateProject root p s now).1.success = true) :
    (∃ m', readVersionMetadata (updateProject root p s now).2
        (p ++ [".auto-claude"]) = some m' ∧
      m'.initializedAt = m.initializedAt ∧ m'.updatedAt = now) ∧
    (∀ root0 p0 s0 now0,
      (initializeProject root0 p0 s0 now0).1.success = true →
      ∃ m', readVersionMetadata (initializeProject root0 p0 s0 now0).2
          (p0 ++ [".auto-claude"]) = some m' ∧
        m'.initializedAt = now0 ∧ m'.updatedAt = now0) := by
  constructor
  · obtain ⟨root₁, v2, hsh, root₂, hex_s, hex_dot, hcopy, hver, hhash, hw,
      hfin⟩ := updateProject_ok root p s now hs
    obtain ⟨srcN', d, sub, hgs, hgd, hcd, hsn⟩ :=
      copyDirAt_ok_exists_dest root s (p ++ [".auto-claude"]) true root₁
        hex_dot hcopy
    have hsrceq : srcN' = Node.dir ses := by
      rw [hsrc] at hgs
      exact (Option.some.injEq _ _ ▸ hgs).symm
    subst hsrceq
    have hsidecar := readVersionMetadata_some root _ m hmd
    have hdside : d.get [".version.json"] = some (.file (.json m)) := by
      rw [get_append, hgd] at hsidecar
      exact hsidecar
    cases d with
    | file c0 => simp [Node.get] at hdside
    | dir ddes =>
        have hdl : ddes.lookup ".version.json" = some (.file (.json m)) := by
          cases hdl0 : ddes.lookup ".version.json" with
          | none => simp [Node.get, hdl0] at hdside
          | some n0 =>
              simp only [Node.get, hdl0] at hdside
              cases hdside
              rfl
        obtain ⟨des', hce, rfl⟩ := copyDir_dir_ok ses ddes true sub hcd
        have hfr := copy_lookup_frame_absent ".version.json" true ses ddes des'
          hce hnosc
        have hr₁side : root₁.get ((p ++ [".auto-claude"]) ++ [".version.json"]) =
            some (.file (.json m)) := by
          rw [get_append, setNode_get _ _ _ _ hsn]
          simp [Node.get, hfr, hdl]
        have hr₁side' : root₁.get (p ++ [".auto-claude", ".version.json"]) =
            some (.file (.json m)) := by simpa using hr₁side
        have hmd₁ : readVersionMetadata root₁ (p ++ [".auto-claude"]) = some m := by
          simp [readVersionMetadata, hr₁side']
        have hM : (match readVersionMetadata root₁ (p ++ [".auto-claude"]) with
            | some m0 => if m0.initializedAt = "" then now
                else m0.initializedAt
            | none => now) = m.initializedAt := by
          rw [hmd₁]
          simp [hinit]
        rw [hM] at hw
        have hself := write_get_self ((p ++ [".auto-claude"]) ++
            [".version.json"]) root₁ root₂ _ hw
        refine ⟨{ version := v2, sourceHash := hsh, sourcePath := s,
                  initializedAt := m.initializedAt, updatedAt := now },
                ?_, rfl, rfl⟩
        have hself' : root₂.get (p ++ [".auto-claude", ".version.json"]) =
            some (.file (.json
              { version := v2, sourceHash := hsh, sourcePath := s,
                initializedAt := m.initializedAt, updatedAt := now })) := by
          simpa using hself
        rw [hfin]
        simp [readVersionMetadata, hself']
  · intro root0 p0 s0 now0 h0
    obtain ⟨r1, r2, r3, r4, r5, v0, hsh0, r6, _, _, _, _, _, _, _, _, _, _,
      hw0, hfin0⟩ := initializeProject_ok root0 p0 s0 now0 h0
    have hself := write_get_self ((p0 ++ [".auto-claude"]) ++
        [".version.json"]) r5 r6 _ hw0
    refine ⟨{ version := v0, sourceHash := hsh0, sourcePath := s0,
              initializedAt := now0, updatedAt := now0 }, ?_, rfl, rfl⟩
    have hself' : r6.get (p0 ++ [".auto-claude", ".version.json"]) =
        some (.file (.json
          { version := v0, sourceHash := hsh0, sourcePath := s0,
            initializedAt := now0, updatedAt := now0 })) := by
      simpa using hself
    rw [hfin0]
    simp [readVersionMetadata, hself']

/-- Claim C6 witness: a concrete update (bundle without a sidecar) carrying
initializedAt forward and refreshing updatedAt, together with the
initialize half of the statement. -/
theorem c6_witness :
    (∃ m', readVersionMetadata
        (updateProject
          (.dir (.cons "proj" (.dir (.cons ".auto-claude"
            (.dir (.cons ".version.json"
              (.file (.json { version := "1.0.0", sourceHash := ["h0"],
                              sourcePath := ["src"], initializedAt := "A",
                              updatedAt := "t0" })) .nil)) .nil))
            (.cons "src" (.dir (.cons "VERSION" (.file (.text "2.0.0")) .nil))
              .nil)))
          ["proj"] ["src"] "t1").2
        (["proj"] ++ [".auto-claude"]) = some m' ∧
      m'.initializedAt = "A" ∧ m'.updatedAt = "t1") ∧
    (∀ root0 p0 s0 now0,
      (initializeProject root0 p0 s0 now0).1.success = true →
      ∃ m', readVersionMetadata (initializeProject root0 p0 s0 now0).2
          (p0 ++ [".auto-claude"]) = some m' ∧
        m'.initializedAt = now0 ∧ m'.updatedAt = now0) :=
  c6_timestamps
    (.dir (.cons "proj" (.dir (.cons ".auto-claude"
      (.dir (.cons ".version.json"
        (.file (.json { version := "1.0.0", sourceHash := ["h0"],
                        sourcePath := ["src"], initializedAt := "A",
                        updatedAt := "t0" })) .nil)) .nil))
      (.cons "src" (.dir (.cons "VERSION" (.file (.text "2.0.0")) .nil))
        .nil)))
    ["proj"] ["src"] "t1"
    (.cons "VERSION" (.file (.text "2.0.0")) .nil)
    { version := "1.0.0", sourceHash := ["h0"], sourcePath := ["src"],
      initializedAt := "A", updatedAt := "t0" }
    rfl (by decide) rfl (by decide) (by decide)

theorem createDataDir_ok (root r' : Node) (base : List String) (name : String)
    (h : createDataDir root base name = .ok r') :
    r'.get ((base ++ [name]) ++ [".gitkeep"]) = some (.file (.text "")) ∧
      ∃ es, r'.get (base ++ [name]) = some (.dir es) := by
  cases hex : existsSync root (base ++ [name]) with
  | true =>
      simp only [createDataDir, hex, if_true] at h
      rw [expure_bind] at h
      exact ⟨write_get_self _ _ _ _ h,
        (write_parents _ _ _ _ h (base ++ [name]) [] ".gitkeep" rfl).2⟩
  | false =>
      simp only [createDataDir, hex, Bool.false_eq_true, if_false] at h
      cases hm : root.mkdirp (base ++ [name]) with
      | error e => rw [hm, exbind_err] at h; simp at h
      | ok rmid =>
          rw [hm, exbind_ok] at h
          exact ⟨write_get_self _ _ _ _ h,
            (write_parents _ _ _ _ h (base ++ [name]) [] ".gitkeep" rfl).2⟩

theorem createDataDir_frame_file (root r' : Node) (base : List String)
    (name : String) (q : List String) (c : FileContent)
    (h : createDataDir root base name = .ok r')
    (hg : root.get q = some (.file c))
    (hq : isPrefixB q ((base ++ [name]) ++ [".gitkeep"]) = false) :
    r'.get q = some (.file c) := by
  cases hex : existsSync root (base ++ [name]) with
  | true =>
      simp only [createDataDir, hex, if_true] at h
      rw [expure_bind] at h
      rw [write_frame _ _ _ _ _ h hq]
      exact hg
  | false =>
      simp only [createDataDir, hex, Bool.false_eq_true, if_false] at h
      cases hm : root.mkdirp (base ++ [name]) with
      | error e => rw [hm, exbind_err] at h; simp at h
      | ok rmid =>
          rw [hm, exbind_ok] at h
          rw [write_frame _ _ _ _ _ h hq]
          exact mkdirp_frame_file _ _ _ _ _ hm hg

theorem createDataDir_frame_dir (root r' : Node) (base : List String)
    (name : String) (q : List String) (es₀ : Entries)
    (h : createDataDir root base name = .ok r')
    (hg : root.get q = some (.dir es₀)) :
    ∃ es₁, r'.get q = some (.dir es₁) := by
  cases hex : existsSync root (base ++ [name]) with
  | true =>
      simp only [createDataDir, hex, if_true] at h
      rw [expure_bind] at h
      exact write_dir_frame _ _ _ _ _ _ h hg
  | false =>
      simp only [createDataDir, hex, Bool.false_eq_true, if_false] at h
      cases hm : root.mkdirp (base ++ [name]) with
      | error e => rw [hm, exbind_err] at h; simp at h
      | ok rmid =>
          rw [hm, exbind_ok] at h
          obtain ⟨es₁, h₁⟩ := mkdirp_dir_frame _ _ _ _ _ hm hg
          exact write_dir_frame _ _ _ _ _ _ h h₁

theorem copyEnvStep_cases (root r' : Node) (base : List String)
    (h : copyEnvStep root base = .ok r') :
    r' = root ∨ ∃ c, root.write (base ++ [".env"]) c = .ok r' := by
  cases hg : root.get (base ++ [".env.example"]) with
  | none =>
      simp only [copyEnvStep, hg] at h
      cases h
      exact Or.inl rfl
  | some n =>
      cases n with
      | dir es =>
          cases hev : existsSync root (base ++ [".env"]) with
          | true =>
              simp only [copyEnvStep, hg, hev] at h
              cases h
              exact Or.inl rfl
          | false => simp [copyEnvStep, hg, hev] at h
      | file c =>
          cases hev : existsSync root (base ++ [".env"]) with
          | true =>
              simp only [copyEnvStep, hg, hev] at h
              cases h
              exact Or.inl rfl
          | false =>
              simp only [copyEnvStep, hg, hev] at h
              exact Or.inr ⟨c, h⟩

/-- Claim C9, counterexample: the marker write is unconditional in the
code.  Here the bundle ships a roadmap directory, so roadmap already exists
from the sync when the data-directory step runs, yet after a successful
initialize a .gitkeep marker has been written into it, contradicting the
claim that a pre-existing data directory is left as-is. -/
theorem c9_counterexample :
    (initializeProject
      (.dir (.cons "proj" (.dir .nil)
        (.cons "src" (.dir (.cons "VERSION" (.file (.text "1.0.0"))
          (.cons "roadmap" (.dir (.cons "r.md" (.file (.text "plan")) .nil))
            .nil))) .nil)))
      ["proj"] ["src"] "t0").1.success = true ∧
    (Node.dir (.cons "VERSION" (.file (.text "1.0.0"))
      (.cons "roadmap" (.dir (.cons "r.md" (.file (.text "plan")) .nil))
        .nil))).get ["roadmap", ".gitkeep"] = none ∧
    (initializeProject
      (.dir (.cons "proj" (.dir .nil)
        (.cons "src" (.dir (.cons "VERSION" (.file (.text "1.0.0"))
          (.cons "roadmap" (.dir (.cons "r.md" (.file (.text "plan")) .nil))
            .nil))) .nil)))
      ["proj"] ["src"] "t0").2.get
        ["proj", ".auto-claude", "roadmap", "r.md"] =
      some (.file (.text "plan")) ∧
    (initializeProject
      (.dir (.cons "proj" (.dir .nil)
        (.cons "src" (.dir (.cons "VERSION" (.file (.text "1.0.0"))
          (.cons "roadmap" (.dir (.cons "r.md" (.file (.text "plan")) .nil))
            .nil))) .nil)))
      ["proj"] ["src"] "t0").2.get
        ["proj", ".auto-claude", "roadmap", ".gitkeep"] =
      some (.file (.text "")) := by
  refine ⟨by decide, by decide, by decide, by decide⟩

theorem isPrefixB_sib (dot : List String) (x y x2 y2 : String)
    (hne : x ≠ x2) :
    isPrefixB ((dot ++ [x]) ++ [y]) ((dot ++ [x2]) ++ [y2]) = false := by
  rw [List.append_assoc dot [x] [y], List.append_assoc dot [x2] [y2],
    isPrefixB_append]
  simp [isPrefixB, hne]

theorem isPrefixB_deep (dot : List String) (x y z : String) :
    isPrefixB ((dot ++ [x]) ++ [y]) (dot ++ [z]) = false := by
  rw [List.append_assoc dot [x] [y], isPrefixB_append]
  simp only [List.singleton_append, isPrefixB]
  cases hxz : decide (x = z) <;> simp

/-- Claim C9 (corrected): during every successful initialize each of the
three managed data directories (specs, roadmap, ideation) exists inside the
instance afterwards, and an empty .gitkeep marker file has been written
into each of them unconditionally, whether or not the directory already
existed from the sync. -/
theorem c9_data_dirs (root : Node) (p s : List String) (now : String)
    (hs : (initializeProject root p s now).1.success = true) :
    ((∃ es, (initializeProject root p s now).2.get
        ((p ++ [".auto-claude"]) ++ ["specs"]) = some (.dir es)) ∧
      (initializeProject root p s now).2.get
        (((p ++ [".auto-claude"]) ++ ["specs"]) ++ [".gitkeep"]) =
        some (.file (.text ""))) ∧
    ((∃ es, (initializeProject root p s now).2.get
        ((p ++ [".auto-claude"]) ++ ["roadmap"]) = some (.dir es)) ∧
      (initializeProject root p s now).2.get
        (((p ++ [".auto-claude"]) ++ ["roadmap"]) ++ [".gitkeep"]) =
        some (.file (.text ""))) ∧
    ((∃ es, (initializeProject root p s now).2.get
        ((p ++ [".auto-claude"]) ++ ["ideation"]) = some (.dir es)) ∧
      (initializeProject root p s now).2.get
        (((p ++ [".auto-claude"]) ++ ["ideation"]) ++ [".gitkeep"]) =
        some (.file (.text ""))) := by
  obtain ⟨root₁, root₂, root₃, root₄, root₅, v, hsh, root₆, _, _, _, _, hd1,
    hd2, hd3, he, _, _, hw, hfin⟩ := initializeProject_ok root p s now hs
  -- specs after its own step
  have h1 := createDataDir_ok root₁ root₂ (p ++ [".auto-claude"]) "specs" hd1
  have hs2m := h1.1
  obtain ⟨es2, hs2d⟩ := h1.2
  -- roadmap after its own step, specs carried across
  have h2 := createDataDir_ok root₂ root₃ (p ++ [".auto-claude"]) "roadmap" hd2
  have hr3m := h2.1
  obtain ⟨es3, hr3d⟩ := h2.2
  have hs3m : root₃.get (((p ++ [".auto-claude"]) ++ ["specs"]) ++ [".gitkeep"]) =
      some (.file (.text "")) := by
    apply createDataDir_frame_file root₂ root₃ _ _ _ _ hd2 hs2m
    exact isPrefixB_sib (p ++ [".auto-claude"]) "specs" ".gitkeep" "roadmap"
      ".gitkeep" (by decide)
  obtain ⟨es3s, hs3d⟩ := createDataDir_frame_dir root₂ root₃ _ _ _ _ hd2 hs2d
  -- ideation step
  have h3 := createDataDir_ok root₃ root₄ (p ++ [".auto-claude"]) "ideation" hd3
  have hi4m := h3.1
  obtain ⟨es4, hi4d⟩ := h3.2
  have hs4m : root₄.get (((p ++ [".auto-claude"]) ++ ["specs"]) ++ [".gitkeep"]) =
      some (.file (.text "")) := by
    apply createDataDir_frame_file root₃ root₄ _ _ _ _ hd3 hs3m
    exact isPrefixB_sib (p ++ [".auto-claude"]) "specs" ".gitkeep" "ideation"
      ".gitkeep" (by decide)
  have hr4m : root₄.get (((p ++ [".auto-claude"]) ++ ["roadmap"]) ++ [".gitkeep"]) =
      some (.file (.text "")) := by
    apply createDataDir_frame_file root₃ root₄ _ _ _ _ hd3 hr3m
    exact isPrefixB_sib (p ++ [".auto-claude"]) "roadmap" ".gitkeep" "ideation"
      ".gitkeep" (by decide)
  obtain ⟨es4s, hs4d⟩ := createDataDir_frame_dir root₃ root₄ _ _ _ _ hd3 hs3d
  obtain ⟨es4r, hr4d⟩ := createDataDir_frame_dir root₃ root₄ _ _ _ _ hd3 hr3d
  -- env step
  have henv : ∀ q c, root₄.get q = some (.file c) →
      isPrefixB q ((p ++ [".auto-claude"]) ++ [".env"]) = false →
      root₅.get q = some (.file c) := by
    intro q c hg hq
    rcases copyEnvStep_cases root₄ root₅ _ he with heq | ⟨c0, hwr⟩
    · rw [← heq] at hg; exact hg
    · rw [write_frame _ _ _ _ _ hwr hq]; exact hg
  have henvd : ∀ q es₀, root₄.get q = some (.dir es₀) →
      ∃ es₁, root₅.get q = some (.dir es₁) := by
    intro q es₀ hg
    rcases copyEnvStep_cases root₄ root₅ _ he with heq | ⟨c0, hwr⟩
    · rw [← heq] at hg; exact ⟨es₀, hg⟩
    · exact write_dir_frame _ _ _ _ _ _ hwr hg
  have hs5m := henv _ _ hs4m
    (isPrefixB_deep (p ++ [".auto-claude"]) "specs" ".gitkeep" ".env")
  have hr5m := henv _ _ hr4m
    (isPrefixB_deep (p ++ [".auto-claude"]) "roadmap" ".gitkeep" ".env")
  have hi5m := henv _ _ hi4m
    (isPrefixB_deep (p ++ [".auto-claude"]) "ideation" ".gitkeep" ".env")
  obtain ⟨es5s, hs5d⟩ := henvd _ _ hs4d
  obtain ⟨es5r, hr5d⟩ := henvd _ _ hr4d
  obtain ⟨es5i, hi5d⟩ := henvd _ _ hi4d
  -- metadata write
  have hs6m : root₆.get (((p ++ [".auto-claude"]) ++ ["specs"]) ++ [".gitkeep"]) =
      some (.file (.text "")) := by
    rw [write_frame _ _ _ _ _ hw
      (isPrefixB_deep (p ++ [".auto-claude"]) "specs" ".gitkeep"
        ".version.json")]
    exact hs5m
  have hr6m : root₆.get (((p ++ [".auto-claude"]) ++ ["roadmap"]) ++ [".gitkeep"]) =
      some (.file (.text "")) := by
    rw [write_frame _ _ _ _ _ hw
      (isPrefixB_deep (p ++ [".auto-claude"]) "roadmap" ".gitkeep"
        ".version.json")]
    exact hr5m
  have hi6m : root₆.get (((p ++ [".auto-claude"]) ++ ["ideation"]) ++ [".gitkeep"]) =
      some (.file (.text "")) := by
    rw [write_frame _ _ _ _ _ hw
      (isPrefixB_deep (p ++ [".auto-claude"]) "ideation" ".gitkeep"
        ".version.json")]
    exact hi5m
  obtain ⟨es6s, hs6d⟩ := write_dir_frame _ _ _ _ _ _ hw hs5d
  obtain ⟨es6r, hr6d⟩ := write_dir_frame _ _ _ _ _ _ hw hr5d
  obtain ⟨es6i, hi6d⟩ := write_dir_frame _ _ _ _ _ _ hw hi5d
  rw [hfin]
  exact ⟨⟨⟨es6s, hs6d⟩, hs6m⟩, ⟨⟨es6r, hr6d⟩, hr6m⟩, ⟨⟨es6i, hi6d⟩, hi6m⟩⟩

/-- Claim C9 witness: the corrected statement evaluated on a concrete
initialization. -/
theorem c9_witness :
    ((∃ es, (initializeProject
        (.dir (.cons "proj" (.dir .nil)
          (.cons "src" (.dir (.cons "VERSION" (.file (.text "1.0.0")) .nil))
            .nil)))
        ["proj"] ["src"] "t0").2.get
        ((["proj"] ++ [".auto-claude"]) ++ ["specs"]) = some (.dir es)) ∧
      (initializeProject
        (.dir (.cons "proj" (.dir .nil)
          (.cons "src" (.dir (.cons "VERSION" (.file (.text "1.0.0")) .nil))
            .nil)))
        ["proj"] ["src"] "t0").2.get
        (((["proj"] ++ [".auto-claude"]) ++ ["specs"]) ++ [".gitkeep"]) =
        some (.file (.text ""))) ∧
    ((∃ es, (initializeProject
        (.dir (.cons "proj" (.dir .nil)
          (.cons "src" (.dir (.cons "VERSION" (.file (.text "1.0.0")) .nil))
            .nil)))
        ["proj"] ["src"] "t0").2.get
        ((["proj"] ++ [".auto-claude"]) ++ ["roadmap"]) = some (.dir es)) ∧
      (initializeProject
        (.dir (.cons "proj" (.dir .nil)
          (.cons "src" (.dir (.cons "VERSION" (.file (.text "1.0.0")) .nil))
            .nil)))
        ["proj"] ["src"] "t0").2.get
        (((["proj"] ++ [".auto-claude"]) ++ ["roadmap"]) ++ [".gitkeep"]) =
        some (.file (.text ""))) ∧
    ((∃ es, (initializeProject
        (.dir (.cons "proj" (.dir .nil)
          (.cons "src" (.dir (.cons "VERSION" (.file (.text "1.0.0")) .nil))
            .nil)))
        ["proj"] ["src"] "t0").2.get
        ((["proj"] ++ [".auto-claude"]) ++ ["ideation"]) = some (.dir es)) ∧
      (initializeProject
        (.dir (.cons "proj" (.dir .nil)
          (.cons "src" (.dir (.cons "VERSION" (.file (.text "1.0.0")) .nil))
            .nil)))
        ["proj"] ["src"] "t0").2.get
        (((["proj"] ++ [".auto-claude"]) ++ ["ideation"]) ++ [".gitkeep"]) =
        some (.file (.text ""))) :=
  c9_data_dirs
    (.dir (.cons "proj" (.dir .nil)
      (.cons "src" (.dir (.cons "VERSION" (.file (.text "1.0.0")) .nil))
        .nil)))
    ["proj"] ["src"] "t0" (by decide)

theorem isPrefixB_nil_right (a : List String) :
    isPrefixB a [] = decide (a = []) := by
  cases a <;> simp [isPrefixB]

theorem isPrefixB_snoc (x : String) (a b : List String) :
    isPrefixB a (b ++ [x]) = (isPrefixB a b || decide (a = b ++ [x])) := by
  induction a generalizing b with
  | nil => simp [isPrefixB]
  | cons h t ih =>
      cases b with
      | nil =>
          simp only [List.nil_append, isPrefixB, isPrefixB_nil_right]
          by_cases hx : h = x
          · subst hx
            simp [List.cons_eq_cons]
          · simp [hx]
      | cons hb tb =>
          simp only [List.cons_append, isPrefixB, ih, List.cons_eq_cons]
          by_cases hh : h = hb
          · subst hh
            simp [ih, Bool.and_or_distrib_left]
          · simp [hh]

theorem isPrefixB_append_left (a b c : List String)
    (h : isPrefixB (a ++ b) c = true) : isPrefixB a c = true := by
  induction a generalizing c with
  | nil => rfl
  | cons x xs ih =>
      cases c with
      | nil => simp [isPrefixB] at h
      | cons y ys =>
          simp only [List.cons_append, isPrefixB, Bool.and_eq_true] at h ⊢
          exact ⟨h.1, ih ys h.2⟩

theorem snoc_ne_of_last_ne (a b : List String) (x y : String) (hxy : x ≠ y) :
    (a ++ [x] : List String) ≠ b ++ [y] := by
  intro hc
  have := congrArg List.reverse hc
  simp only [List.reverse_append, List.reverse_singleton,
    List.singleton_append, List.cons.injEq] at this
  exact hxy this.1

/-- Claim C7 (confirmed): for a legacy instance (directory present, no
metadata sidecar) with an existing source bundle that does not lie on the
path of the instance directory, checkVersion synthesizes and persists metadata on the first call
(a sidecar exists afterwards), and a second call does not re-synthesize: it
leaves the filesystem unchanged and returns the same currentVersion as the
first call. -/
theorem c7_synthesize_once (root : Node) (p s : List String)
    (now now2 : String) (ies ses : Entries)
    (hins : root.get (p ++ [".auto-claude"]) = some (.dir ies))
    (hnosc : root.get ((p ++ [".auto-claude"]) ++ [".version.json"]) = none)
    (hsrc : root.get s = some (.dir ses))
    (hmarker : root.get (s ++ ["VERSION"]) = none ∨
      ∃ c, root.get (s ++ ["VERSION"]) = some (.file c))
    (hd1 : isPrefixB s (p ++ [".auto-claude"]) = false) :
    ∃ r₁ root₁ r₂,
      checkVersion root p s now = .ok (r₁, root₁) ∧
      (root₁.get ((p ++ [".auto-claude"]) ++ [".version.json"])).isSome =
        true ∧
      checkVersion root₁ p s now2 = .ok (r₂, root₁) ∧
      r₂.currentVersion = r₁.currentVersion := by
  have hexdot : existsSync root (p ++ [".auto-claude"]) = true := by
    simp [existsSync, hins]
  have hexs : existsSync root s = true := by simp [existsSync, hsrc]
  have hnosc' : root.get (p ++ [".auto-claude", ".version.json"]) = none := by
    simpa using hnosc
  have hmd0 : readVersionMetadata root (p ++ [".auto-claude"]) = none := by
    simp [readVersionMetadata, hnosc']
  obtain ⟨v, hv⟩ : ∃ v, readSourceVersion root s = .ok v := by
    rcases hmarker with h | ⟨c, h⟩
    · exact ⟨"0.0.0", by simp [readSourceVersion, h]⟩
    · exact ⟨jsTrim c.bytes, by simp [readSourceVersion, h]⟩
  have hhash0 : calculateDirectoryHash (root.get (p ++ [".auto-claude"])) =
      .ok (hashChunks (normalizeTree (.dir ies))) := by
    rw [hins]; rfl
  have hlies : ies.lookup ".version.json" = none := by
    rw [get_append, hins] at hnosc
    have h2 : (Node.dir ies).get [".version.json"] = none := hnosc
    cases hl : ies.lookup ".version.json" with
    | none => rfl
    | some n => simp [Node.get, hl] at h2
  obtain ⟨root₁, hw⟩ := write_ok_exists (p ++ [".auto-claude"]) ".version.json"
    root ies
    (.json
      { version := v, sourceHash := hashChunks (normalizeTree (.dir ies)),
        sourcePath := s, initializedAt := now, updatedAt := now })
    hins (fun des hcon => by rw [hlies] at hcon; cases hcon)
  have hwv : writeVersionMetadata root (p ++ [".auto-claude"])
      { version := v, sourceHash := hashChunks (normalizeTree (.dir ies)),
        sourcePath := s, initializedAt := now, updatedAt := now } =
      .ok root₁ := hw
  -- the written path and the paths we still read are unrelated
  have hfrs : root₁.get s = root.get s := by
    apply write_frame _ _ _ _ _ hw
    rw [isPrefixB_snoc]
    have hne : s ≠ p ++ [".auto-claude", ".version.json"] := by
      intro hc
      rw [hc, hnosc'] at hsrc
      cases hsrc
    simp [hd1, hne]
  have hfrv : root₁.get (s ++ ["VERSION"]) = root.get (s ++ ["VERSION"]) := by
    apply write_frame _ _ _ _ _ hw
    rw [isPrefixB_snoc]
    have hpre : isPrefixB (s ++ ["VERSION"]) (p ++ [".auto-claude"]) = false := by
      cases hb : isPrefixB (s ++ ["VERSION"]) (p ++ [".auto-claude"]) with
      | false => rfl
      | true => rw [isPrefixB_append_left _ _ _ hb] at hd1; cases hd1
    have hne : s ++ ["VERSION"] ≠ p ++ [".auto-claude", ".version.json"] := by
      have h0 := snoc_ne_of_last_ne s (p ++ [".auto-claude"]) "VERSION"
        ".version.json" (by decide)
      simpa using h0
    simp [hpre, hne]
  have hexs₁ : existsSync root₁ s = true := by
    simp [existsSync, hfrs, hsrc]
  have hv₁ : readSourceVersion root₁ s = .ok v := by
    unfold readSourceVersion at hv ⊢
    rw [hfrv]
    exact hv
  have hhash₁ : calculateDirectoryHash (root₁.get s) =
      .ok (hashChunks (normalizeTree (.dir ses))) := by
    rw [hfrs, hsrc]; rfl
  have hres : checkVersionResolved root₁ (p ++ [".auto-claude"]) s
      { version := v, sourceHash := hashChunks (normalizeTree (.dir ies)),
        sourcePath := s, initializedAt := now, updatedAt := now } =
      .ok ({ isInitialized := true, currentVersion := some v,
             sourceVersion := some v,
             updateAvailable :=
               decide ((hashChunks (normalizeTree (.dir ies))) ≠
                 hashChunks (normalizeTree (.dir ses))) && decide (v ≠ v),
             sourcePath := some (p ++ [".auto-claude"]) }, root₁) := by
    simp only [checkVersionResolved, hexs₁, Bool.not_true, Bool.false_eq_true,
      if_false]
    rw [hv₁, exbind_ok, hhash₁, exbind_ok]
    rfl
  have hself := write_get_self _ _ _ _ hw
  have hself' : root₁.get (p ++ [".auto-claude", ".version.json"]) =
      some (.file (.json
        { version := v, sourceHash := hashChunks (normalizeTree (.dir ies)),
          sourcePath := s, initializedAt := now, updatedAt := now })) := by
    simpa using hself
  have hexdot₁ : existsSync root₁ (p ++ [".auto-claude"]) = true := by
    obtain ⟨es₁, he₁⟩ :=
      (write_parents _ _ _ _ hw (p ++ [".auto-claude"]) [] ".version.json"
        rfl).2
    simp [existsSync, he₁]
  have hmd₁ : readVersionMetadata root₁ (p ++ [".auto-claude"]) =
      some { version := v, sourceHash := hashChunks (normalizeTree (.dir ies)),
             sourcePath := s, initializedAt := now, updatedAt := now } := by
    simp [readVersionMetadata, hself']
  refine ⟨{ isInitialized := true, currentVersion := some v,
            sourceVersion := some v,
            updateAvailable :=
              decide ((hashChunks (normalizeTree (.dir ies))) ≠
                hashChunks (normalizeTree (.dir ses))) && decide (v ≠ v),
            sourcePath := some (p ++ [".auto-claude"]) }, root₁,
          { isInitialized := true, currentVersion := some v,
            sourceVersion := some v,
            updateAvailable :=
              decide ((hashChunks (normalizeTree (.dir ies))) ≠
                hashChunks (normalizeTree (.dir ses))) && decide (v ≠ v),
            sourcePath := some (p ++ [".auto-claude"]) }, ?_, ?_, ?_, rfl⟩
  · simp only [checkVersion, hexdot, if_true, hmd0, hexs, if_true]
    rw [hv, exbind_ok, hhash0, exbind_ok, hwv, exbind_ok]
    exact hres
  · simp [hself']
  · simp only [checkVersion, hexdot₁, if_true, hmd₁]
    exact hres

/-- Claim C7 witness: a concrete legacy instance; both calls evaluated
through the theorem. -/
theorem c7_witness :
    ∃ r₁ root₁ r₂,
      checkVersion
        (.dir (.cons "proj" (.dir (.cons ".auto-claude"
          (.dir (.cons "main.py" (.file (.text "code")) .nil)) .nil))
          (.cons "src" (.dir (.cons "VERSION" (.file (.text "1.0.0")) .nil))
            .nil)))
        ["proj"] ["src"] "T1" = .ok (r₁, root₁) ∧
      (root₁.get ((["proj"] ++ [".auto-claude"]) ++ [".version.json"])).isSome =
        true ∧
      checkVersion root₁ ["proj"] ["src"] "T2" = .ok (r₂, root₁) ∧
      r₂.currentVersion = r₁.currentVersion :=
  c7_synthesize_once
    (.dir (.cons "proj" (.dir (.cons ".auto-claude"
      (.dir (.cons "main.py" (.file (.text "code")) .nil)) .nil))
      (.cons "src" (.dir (.cons "VERSION" (.file (.text "1.0.0")) .nil))
        .nil)))
    ["proj"] ["src"] "T1" "T2"
    (.cons "main.py" (.file (.text "code")) .nil)
    (.cons "VERSION" (.file (.text "1.0.0")) .nil)
    rfl rfl rfl (Or.inr ⟨.text "1.0.0", rfl⟩) (by decide)

theorem charsLe_total (a b : List Char) :
    charsLe a b = true ∨ charsLe b a = true := by
  induction a generalizing b with
  | nil => exact Or.inl rfl
  | cons x xs ih =>
      cases b with
      | nil => exact Or.inr rfl
      | cons y ys =>
          by_cases hxy : x = y
          · subst hxy
            simp only [charsLe, if_true]
            exact ih ys
          · rcases lt_or_gt_of_ne hxy with h | h
            · exact Or.inl (by simp [charsLe, hxy, h])
            · exact Or.inr (by simp [charsLe, Ne.symm hxy, h])

theorem charsLe_antisymm (a b : List Char) (h1 : charsLe a b = true)
    (h2 : charsLe b a = true) : a = b := by
  induction a generalizing b with
  | nil =>
      cases b with
      | nil => rfl
      | cons y ys => simp [charsLe] at h2
  | cons x xs ih =>
      cases b with
      | nil => simp [charsLe] at h1
      | cons y ys =>
          by_cases hxy : x = y
          · subst hxy
            simp only [charsLe, if_true] at h1 h2
            rw [ih ys h1 h2]
          · simp only [charsLe, hxy, if_false, decide_eq_true_eq] at h1
            simp only [charsLe, Ne.symm hxy, if_false, decide_eq_true_eq] at h2
            exact absurd h2 (lt_asymm h1)

theorem charsLe_trans (a b c : List Char) (h1 : charsLe a b = true)
    (h2 : charsLe b c = true) : charsLe a c = true := by
  induction a generalizing b c with
  | nil => rfl
  | cons x xs ih =>
      cases b with
      | nil => simp [charsLe] at h1
      | cons y ys =>
          cases c with
          | nil => simp [charsLe] at h2
          | cons z zs =>
              by_cases hxy : x = y
              · subst hxy
                simp only [charsLe, if_true] at h1
                by_cases hyz : x = z
                · subst hyz
                  simp only [charsLe, if_true] at h2 ⊢
                  exact ih ys zs h1 h2
                · simp only [charsLe, hyz, if_false] at h2 ⊢
                  exact h2
              · simp only [charsLe, hxy, if_false, decide_eq_true_eq] at h1
                by_cases hyz : y = z
                · subst hyz
                  simp [charsLe, hxy, h1]
                · simp only [charsLe, hyz, if_false, decide_eq_true_eq] at h2
                  have hxz : x < z := lt_trans h1 h2
                  have hne : x ≠ z := fun hc => absurd (hc ▸ hxz) (lt_irrefl _)
                  simp [charsLe, hne, hxz]

theorem string_data_inj (a b : String) (h : a.data = b.data) : a = b := by
  cases a
  cases b
  cases h
  rfl

theorem strLe_total (a b : String) : strLe a b = true ∨ strLe b a = true :=
  charsLe_total a.data b.data

theorem strLe_antisymm (a b : String) (h1 : strLe a b = true)
    (h2 : strLe b a = true) : a = b :=
  string_data_inj a b (charsLe_antisymm a.data b.data h1 h2)

theorem strLe_trans (a b c : String) (h1 : strLe a b = true)
    (h2 : strLe b c = true) : strLe a c = true :=
  charsLe_trans a.data b.data c.data h1 h2

theorem insertByName_comm (a b : String × Node) (hne : a.1 ≠ b.1)
    (e : Entries) :
    insertByName a (insertByName b e) = insertByName b (insertByName a e) := by
  have hcase : (strLe a.1 b.1 = true ∧ strLe b.1 a.1 = false) ∨
      (strLe a.1 b.1 = false ∧ strLe b.1 a.1 = true) := by
    rcases strLe_total a.1 b.1 with h | h
    · refine Or.inl ⟨h, ?_⟩
      cases hba : strLe b.1 a.1 with
      | false => rfl
      | true => exact absurd (strLe_antisymm _ _ h hba) hne
    · refine Or.inr ⟨?_, h⟩
      cases hab : strLe a.1 b.1 with
      | false => rfl
      | true => exact absurd (strLe_antisymm _ _ hab h) hne
  induction e using entriesInd with
  | hnil =>
      rcases hcase with ⟨hab, hba⟩ | ⟨hab, hba⟩ <;>
        simp [insertByName, hab, hba]
  | hcons k v rest ih =>
      by_cases hak : strLe a.1 k = true
      · by_cases hbk : strLe b.1 k = true
        · rcases hcase with ⟨hab, hba⟩ | ⟨hab, hba⟩ <;>
            simp [insertByName, hab, hba, hak, hbk]
        · have hbk' : strLe b.1 k = false := by simpa using hbk
          have hba : strLe b.1 a.1 = false := by
            cases hc : strLe b.1 a.1 with
            | false => rfl
            | true => exact absurd (strLe_trans _ _ _ hc hak) hbk
          simp [insertByName, hak, hbk', hba]
      · have hak' : strLe a.1 k = false := by simpa using hak
        by_cases hbk : strLe b.1 k = true
        · have hab : strLe a.1 b.1 = false := by
            cases hc : strLe a.1 b.1 with
            | false => rfl
            | true => exact absurd (strLe_trans _ _ _ hc hbk) hak
          simp [insertByName, hak', hbk, hab]
        · have hbk' : strLe b.1 k = false := by simpa using hbk
          simp [insertByName, hak', hbk', ih]

/-- Claim C4 (confirmed): the directory fingerprint is invariant under the
on-disk enumeration order of each level: trees with the same entries (same
names, kinds and contents) at every level, only enumerated in different
orders, have equal recursively-sorted forms and hence equal hashes; in
particular transposing two adjacent distinctly-named entries of a listing
never changes the hash, because entries are sorted by name before being
folded into the hash. -/
theorem c4_hash_order_independent :
    (∀ t₁ t₂ : Node, normalizeTree t₁ = normalizeTree t₂ →
      calculateDirectoryHash (some t₁) = calculateDirectoryHash (some t₂)) ∧
    (∀ (k₁ : String) (n₁ : Node) (k₂ : String) (n₂ : Node) (rest : Entries),
      k₁ ≠ k₂ →
      calculateDirectoryHash (some (.dir (.cons k₁ n₁ (.cons k₂ n₂ rest)))) =
        calculateDirectoryHash
          (some (.dir (.cons k₂ n₂ (.cons k₁ n₁ rest))))) := by
  constructor
  · intro t₁ t₂ h
    cases t₁ with
    | file c₁ =>
        cases t₂ with
        | file c₂ => rfl
        | dir es₂ => simp [normalizeTree] at h
    | dir es₁ =>
        cases t₂ with
        | file c₂ => simp [normalizeTree] at h
        | dir es₂ =>
            simp only [calculateDirectoryHash, Except.ok.injEq]
            rw [h]
  · intro k₁ n₁ k₂ n₂ rest hne
    simp only [calculateDirectoryHash, Except.ok.injEq, normalizeTree,
      normalizeEntries, sortEntries]
    rw [insertByName_comm (k₁, normalizeTree n₁) (k₂, normalizeTree n₂) hne]

/-- Claim C4 witness: a permuted tree (reordered at the top level and
inside a subdirectory) hashes identically, and a concrete adjacent
transposition leaves the hash unchanged. -/
theorem c4_witness :
    calculateDirectoryHash (some (.dir
      (.cons "b" (.dir (.cons "y" (.file (.text "2"))
        (.cons "x" (.file (.text "1")) .nil)))
        (.cons "a" (.file (.text "0")) .nil)))) =
      calculateDirectoryHash (some (.dir
        (.cons "a" (.file (.text "0"))
          (.cons "b" (.dir (.cons "x" (.file (.text "1"))
            (.cons "y" (.file (.text "2")) .nil))) .nil)))) ∧
    calculateDirectoryHash (some (.dir
      (.cons "b" (.file (.text "B"))
        (.cons "a" (.file (.text "A"))
          (.cons "c" (.file (.text "C")) .nil))))) =
      calculateDirectoryHash (some (.dir
        (.cons "a" (.file (.text "A"))
          (.cons "b" (.file (.text "B"))
            (.cons "c" (.file (.text "C")) .nil))))) :=
  ⟨c4_hash_order_independent.1
      (.dir (.cons "b" (.dir (.cons "y" (.file (.text "2"))
          (.cons "x" (.file (.text "1")) .nil)))
        (.cons "a" (.file (.text "0")) .nil)))
      (.dir (.cons "a" (.file (.text "0"))
        (.cons "b" (.dir (.cons "x" (.file (.text "1"))
          (.cons "y" (.file (.text "2")) .nil))) .nil)))
      (by decide),
   c4_hash_order_independent.2 "b" (.file (.text "B")) "a" (.file (.text "A"))
      (.cons "c" (.file (.text "C")) .nil) (by decide)⟩

end AutoClaude
